import Mathlib

/-!
Verification of the jeeves-runner scheduling / execution / persistence core.

This file shallowly embeds the parts of the TypeScript source that the
checked properties are about:

* `src/client/queue-ops.ts` — the durable work queue (enqueue with
  JSONPath deduplication, claim-based dequeue, done, fail).
* `src/scheduler/scheduler.ts` — the run controller (concurrency cap,
  overlap policy, run-record lifecycle) together with
  `src/scheduler/cron-registry.ts`.
* `src/db/migrations.ts` — the schema migration runner.
* `src/scheduler/executor.ts` — the JR_RESULT structured-marker parser.
* `src/client/state-ops.ts` — the scalar state store (TTL parsing and
  expiry) and the grouped-items collection store.

SQL tables are modelled as Lean lists of row structures; SQLite's
`datetime` comparisons on TEXT columns are modelled as lexicographic
string comparison of the exact strings the code writes; machine clocks
are explicit `Nat` millisecond parameters.  External collaborators
(the JSONPath library, JSON.parse, the executors' child processes) are
oracles passed in as function or value parameters.
-/

namespace JeevesRunner

/-! ## Queue engine (src/client/queue-ops.ts)

The `queue_items` table after migration 002.  `created_at` is modelled by
the monotone insertion counter (SQLite's `datetime('now')` default is
nondecreasing in insertion order; the model makes the `ORDER BY created_at`
tie-break deterministic).  `claimed_at` / `finished_at` store the `now`
argument of the operation that set them. -/

/-- Status values of a queue item row. -/
inductive QStatus where
  | pending
  | processing
  | done
  | failed
deriving DecidableEq, Repr

/-- A row of the queue_items table (the columns queue-ops reads or writes). -/
structure QueueItemRow where
  id : Nat
  queue_id : String
  payload : String
  status : QStatus
  priority : Int
  attempts : Nat
  max_attempts : Nat
  dedup_key : Option String
  error : Option String
  created_at : Nat
  claimed_at : Option Nat
  finished_at : Option Nat
deriving DecidableEq, Repr

/-- A row of the queues definition table (columns enqueue reads).
The nullable columns are Options. -/
structure QueueDef where
  id : String
  dedup_expr : Option String
  dedup_scope : Option String
  max_attempts : Option Nat
deriving DecidableEq, Repr

/-- The queue-relevant database state: the immutable definitions table,
the items table, and the AUTOINCREMENT counter for item ids. -/
structure QState where
  defs : List QueueDef
  items : List QueueItemRow
  nextId : Nat
deriving DecidableEq, Repr

/-- JavaScript truthiness of a nullable string (`null`, `undefined` and
the empty string are falsy). -/
def truthy : Option String → Bool
  | none => false
  | some s => !s.isEmpty

/-- Status filter used by the dedup lookup: scope `pending` checks
statuses pending and processing, any other scope string checks
pending, processing and done (the code tests `dedupScope === 'pending'`). -/
def statusMatchesScope (scope : String) (s : QStatus) : Bool :=
  if scope == "pending" then s == .pending || s == .processing
  else s == .pending || s == .processing || s == .done

/-- The enqueue operation of queue-ops.  `evalPath expr payload` is the
oracle for the jsonpath-plus call `JSONPath(\x7bpath, json\x7d)` with the
results already passed through the `String(...)` conversion the code
applies to `result[0]`; `none` models the library throwing.  The
`if (dedupKey)` JS-truthiness guard means an empty-string key skips the
duplicate lookup (the key is still stored on the inserted row).
Returns the new item id, or -1 when skipped by deduplication. -/
def enqueue (evalPath : String → String → Option (List String))
    (st : QState) (queue : String) (payload : String)
    (priority : Int) (maxAttemptsOpt : Option Nat) : Int × QState :=
  let queueDef := st.defs.find? (fun d => d.id == queue)
  let maxAttempts :=
    (maxAttemptsOpt.orElse fun _ => queueDef.bind fun d => d.max_attempts).getD 1
  let dedupKey : Option String :=
    match queueDef with
    | some d =>
        if truthy d.dedup_expr then
          match evalPath (d.dedup_expr.getD "") payload with
          | some (v :: _) => some v
          | _ => none
        else none
    | none => none
  let dup : Bool :=
    match queueDef, dedupKey with
    | some d, some k =>
        if k.isEmpty then false
        else
          let scope := if truthy d.dedup_scope then d.dedup_scope.getD "" else "pending"
          (st.items.find? fun it =>
            it.queue_id == queue && it.dedup_key == some k
              && statusMatchesScope scope it.status).isSome
    | _, _ => false
  if dup then (-1, st)
  else
    let row : QueueItemRow :=
      { id := st.nextId, queue_id := queue, payload := payload
        status := .pending, priority := priority, attempts := 0
        max_attempts := maxAttempts, dedup_key := dedupKey, error := none
        created_at := st.nextId, claimed_at := none, finished_at := none }
    (Int.ofNat st.nextId,
      { st with items := st.items ++ [row], nextId := st.nextId + 1 })

/-- Ordering of the dequeue SELECT: priority DESC, created_at ASC. -/
def pollLe (a b : QueueItemRow) : Bool :=
  b.priority < a.priority || (a.priority == b.priority && a.created_at ≤ b.created_at)

/-- Insert into a list sorted by `pollLe` (stable insertion sort models
the ORDER BY of the dequeue SELECT). -/
def insertPoll (x : QueueItemRow) : List QueueItemRow → List QueueItemRow
  | [] => [x]
  | y :: ys => if pollLe x y then x :: y :: ys else y :: insertPoll x ys

/-- Sort rows by `pollLe`. -/
def sortPoll : List QueueItemRow → List QueueItemRow
  | [] => []
  | x :: xs => insertPoll x (sortPoll xs)

/-- The SELECT of dequeue: pending rows of the queue, ordered by
priority DESC then created_at ASC, LIMIT count. -/
def dequeueSelect (st : QState) (queue : String) (count : Nat) : List QueueItemRow :=
  (sortPoll (st.items.filter fun it =>
    it.queue_id == queue && it.status == .pending)).take count

/-- The per-row UPDATE of dequeue: status=processing, claimed_at=now,
attempts=attempts+1. -/
def claimUpdate (now : Nat) (it : QueueItemRow) : QueueItemRow :=
  { it with status := .processing, claimed_at := some now, attempts := it.attempts + 1 }

/-- The dequeue operation: SELECT then an UPDATE per selected row id,
in one transaction.  The per-row UPDATE loop is modelled as one pass
over the table updating exactly the rows whose id was selected (ids are
a primary key, so each UPDATE touches one row).  Returns the claimed
(id, payload) pairs; the payload JSON.parse of a stored stringify
round-trips, so payloads are kept as the stored strings. -/
def dequeue (now : Nat) (st : QState) (queue : String) (count : Nat) :
    List (Nat × String) × QState :=
  let selected := dequeueSelect st queue count
  let ids := selected.map (fun r => r.id)
  let items2 := st.items.map fun it =>
    if ids.contains it.id then claimUpdate now it else it
  (selected.map fun r => (r.id, r.payload), { st with items := items2 })

/-- The done operation: UPDATE status='done', finished_at=now WHERE id=?. -/
def doneOp (now : Nat) (st : QState) (queueItemId : Nat) : QState :=
  { st with items := st.items.map fun it =>
      if it.id == queueItemId then { it with status := .done, finished_at := some now }
      else it }

/-- The fail operation: read (attempts, max_attempts); missing id is a
no-op; attempts < max_attempts resets to pending recording the error;
otherwise dead-letters to failed with finished_at=now. -/
def failOp (now : Nat) (st : QState) (queueItemId : Nat) (err : Option String) : QState :=
  match st.items.find? (fun it => it.id == queueItemId) with
  | none => st
  | some item =>
      if item.attempts < item.max_attempts then
        { st with items := st.items.map fun it =>
            if it.id == queueItemId then { it with status := .pending, error := err }
            else it }
      else
        { st with items := st.items.map fun it =>
            if it.id == queueItemId then
              { it with status := .failed, finished_at := some now, error := err }
            else it }

/-- Lookup of a queue item row by id (SELECT ... WHERE id = ?). -/
def findItem (st : QState) (id : Nat) : Option QueueItemRow :=
  st.items.find? (fun it => it.id == id)

section FindMapLemmas

variable {α : Type _}

/-- find? commutes with a map that does not change the predicate. -/
theorem find?_map_of_pres (f : α → α) (p : α → Bool) (l : List α)
    (h : ∀ x, p (f x) = p x) : (l.map f).find? p = (l.find? p).map f := by
  induction l with
  | nil => rfl
  | cons x xs ih =>
      by_cases hx : p x
      · simp [List.find?, h, hx]
      · simp only [List.map_cons, List.find?]
        rw [h x]
        simp only [hx]
        exact ih

/-- find? ignores a map that fixes every element the predicate accepts
and does not change the predicate. -/
theorem find?_map_of_fix (f : α → α) (p : α → Bool) (l : List α)
    (h : ∀ x, p (f x) = p x) (hfix : ∀ x, p x = true → f x = x) :
    (l.map f).find? p = l.find? p := by
  rw [find?_map_of_pres f p l h]
  cases hl : l.find? p with
  | none => rfl
  | some a => simp [hfix a (List.find?_some hl)]

end FindMapLemmas

/-- C9: for an existing queue item id, done sets status to done and
finished_at to now with no precondition on the current status, leaving
every other row unchanged; done on a non-existent id changes nothing. -/
theorem done_unconditional (now : Nat) (st : QState) (id : Nat) :
    (∀ it, findItem st id = some it →
      findItem (doneOp now st id) id
          = some { it with status := .done, finished_at := some now } ∧
      ∀ j, j ≠ id → findItem (doneOp now st id) j = findItem st j) ∧
    (findItem st id = none → doneOp now st id = st) := by
  have hpres : ∀ (k : Nat) (x : QueueItemRow),
      ((if x.id == id then { x with status := .done, finished_at := some now } else x).id == k)
        = (x.id == k) := by
    intro k x
    by_cases hx : x.id == id
    · simp [hx]
    · simp [hx]
  constructor
  · intro it hit
    have hfind := find?_map_of_pres
      (fun x => if x.id == id then { x with status := .done, finished_at := some now } else x)
      (fun x => x.id == id) st.items (hpres id)
    constructor
    · show (st.items.map _).find? _ = _
      rw [hfind]
      unfold findItem at hit
      rw [hit]
      have hid : (it.id == id) = true := by simpa using List.find?_some hit
      have hideq : it.id = id := by simpa using hid
      simp [hideq]
    · intro j hj
      show (st.items.map _).find? _ = _
      have hfix := find?_map_of_fix
        (fun x => if x.id == id then { x with status := .done, finished_at := some now } else x)
        (fun x => x.id == j) st.items (hpres j)
        (by
          intro x hx
          have hxj : x.id = j := by simpa using hx
          have hne : ¬ (x.id == id) = true := by simp [hxj, hj]
          simp [hne])
      rw [hfix]
      rfl
  · intro hnone
    have hall := (List.find?_eq_none).mp hnone
    unfold doneOp
    have hmap : st.items.map (fun it =>
        if it.id == id then { it with status := .done, finished_at := some now } else it)
        = st.items := by
      rw [List.map_congr_left, List.map_id]
      intro a ha
      simp [hall a ha]
    rw [hmap]

/-- The pending row enqueue inserts when deduplication does not skip. -/
def enqueueRow (st : QState) (q payload : String) (pr : Int)
    (maxAttempts : Nat) (dedupKey : Option String) : QueueItemRow :=
  { id := st.nextId, queue_id := q, payload := payload
    status := .pending, priority := pr, attempts := 0
    max_attempts := maxAttempts, dedup_key := dedupKey, error := none
    created_at := st.nextId, claimed_at := none, finished_at := none }

/-- C4: enqueue on a queue whose definition has a dedup expression that
yields a dedup key - a non-empty string, since the code guards the
duplicate lookup with the JS-truthiness test `if (dedupKey)` - returns
the sentinel -1 exactly when an item with the same queue id and dedup
key exists in the scope's status set (scope pending: pending or
processing; scope all: pending, processing or done); otherwise it
appends a new pending row and returns its id.  An empty-string key is
falsy: the duplicate lookup is skipped and a new row is always
inserted. -/
theorem enqueue_dedup (evalPath : String → String → Option (List String))
    (st : QState) (q payload : String) (pr : Int) (ma : Option Nat)
    (d : QueueDef) (e v : String) (vs : List String)
    (hd : st.defs.find? (fun x => x.id == q) = some d)
    (he : d.dedup_expr = some e) (hne : e ≠ "")
    (hev : evalPath e payload = some (v :: vs)) :
    (v ≠ "" →
      ((d.dedup_scope = some "pending" ∨ d.dedup_scope = none →
        ((enqueue evalPath st q payload pr ma).1 = -1 ↔
          ∃ it ∈ st.items, it.queue_id = q ∧ it.dedup_key = some v ∧
            (it.status = .pending ∨ it.status = .processing))) ∧
       (d.dedup_scope = some "all" →
        ((enqueue evalPath st q payload pr ma).1 = -1 ↔
          ∃ it ∈ st.items, it.queue_id = q ∧ it.dedup_key = some v ∧
            (it.status = .pending ∨ it.status = .processing ∨ it.status = .done))))) ∧
    (v = "" → (enqueue evalPath st q payload pr ma).1 = Int.ofNat st.nextId) ∧
    ((enqueue evalPath st q payload pr ma).1 ≠ -1 →
      (enqueue evalPath st q payload pr ma).1 = Int.ofNat st.nextId ∧
      (enqueue evalPath st q payload pr ma).2 =
        { st with
            items := st.items ++
              [enqueueRow st q payload pr ((ma.orElse fun _ => d.max_attempts).getD 1) (some v)]
            nextId := st.nextId + 1 }) := by
  have hE : e.isEmpty = false := by
    by_contra hc
    have h2 : e.isEmpty = true := by simpa using hc
    exact hne ((String.isEmpty_iff e).mp h2)
  have hform : enqueue evalPath st q payload pr ma =
      (if (if v.isEmpty then false
           else (st.items.find? fun it =>
              it.queue_id == q && it.dedup_key == some v
                && statusMatchesScope
                    (if truthy d.dedup_scope then d.dedup_scope.getD "" else "pending")
                    it.status).isSome)
       then (-1, st)
       else (Int.ofNat st.nextId,
         { st with
             items := st.items ++
               [enqueueRow st q payload pr ((ma.orElse fun _ => d.max_attempts).getD 1) (some v)]
             nextId := st.nextId + 1 })) := by
    simp [enqueue, enqueueRow, hd, he, hev, truthy, hE]
  have hpend : ∀ it : QueueItemRow,
      (it.queue_id == q && (it.dedup_key == some v)
        && statusMatchesScope "pending" it.status) = true
      ↔ (it.queue_id = q ∧ it.dedup_key = some v ∧
          (it.status = .pending ∨ it.status = .processing)) := by
    intro it
    simp [statusMatchesScope, and_assoc]
  have hall : ∀ it : QueueItemRow,
      (it.queue_id == q && (it.dedup_key == some v)
        && statusMatchesScope "all" it.status) = true
      ↔ (it.queue_id = q ∧ it.dedup_key = some v ∧
          (it.status = .pending ∨ it.status = .processing ∨ it.status = .done)) := by
    intro it
    simp [statusMatchesScope, and_assoc, or_assoc]
  rw [hform]
  refine ⟨?_, ?_, ?_⟩
  · intro hvne
    have hVE : v.isEmpty = false := by
      by_contra hc
      have h2 : v.isEmpty = true := by simpa using hc
      exact hvne ((String.isEmpty_iff v).mp h2)
    have hguard : (if v.isEmpty then false
        else (st.items.find? fun it =>
          it.queue_id == q && it.dedup_key == some v
            && statusMatchesScope
                (if truthy d.dedup_scope then d.dedup_scope.getD "" else "pending")
                it.status).isSome)
        = (st.items.find? fun it =>
          it.queue_id == q && it.dedup_key == some v
            && statusMatchesScope
                (if truthy d.dedup_scope then d.dedup_scope.getD "" else "pending")
                it.status).isSome := by
      rw [hVE]
      rfl
    rw [hguard]
    refine ⟨?_, ?_⟩
    · intro hscope
      have hs : (if truthy d.dedup_scope then d.dedup_scope.getD "" else "pending") = "pending" := by
        rcases hscope with hscope | hscope <;> simp [hscope, truthy]
      rw [hs]
      by_cases hdup : (st.items.find? fun it =>
          it.queue_id == q && it.dedup_key == some v
            && statusMatchesScope "pending" it.status).isSome = true
      · obtain ⟨it2, hmem, hit⟩ := List.find?_isSome.mp hdup
        rw [if_pos hdup]
        exact iff_of_true rfl ⟨it2, hmem, (hpend it2).mp hit⟩
      · rw [if_neg hdup]
        refine iff_of_false ?_ ?_
        · intro hcon
          have hcon2 : (st.nextId : Int) = -1 := hcon
          omega
        · intro ⟨it2, hmem, hprops⟩
          exact hdup (List.find?_isSome.mpr ⟨it2, hmem, (hpend it2).mpr hprops⟩)
    · intro hscope
      have hs : (if truthy d.dedup_scope then d.dedup_scope.getD "" else "pending") = "all" := by
        rw [hscope]
        decide
      rw [hs]
      by_cases hdup : (st.items.find? fun it =>
          it.queue_id == q && it.dedup_key == some v
            && statusMatchesScope "all" it.status).isSome = true
      · obtain ⟨it2, hmem, hit⟩ := List.find?_isSome.mp hdup
        rw [if_pos hdup]
        exact iff_of_true rfl ⟨it2, hmem, (hall it2).mp hit⟩
      · rw [if_neg hdup]
        refine iff_of_false ?_ ?_
        · intro hcon
          have hcon2 : (st.nextId : Int) = -1 := hcon
          omega
        · intro ⟨it2, hmem, hprops⟩
          exact hdup (List.find?_isSome.mpr ⟨it2, hmem, (hall it2).mpr hprops⟩)
  · intro hveq
    subst hveq
    rfl
  · intro hnot
    by_cases hdup : (if v.isEmpty then false
        else (st.items.find? fun it =>
          it.queue_id == q && it.dedup_key == some v
            && statusMatchesScope
                (if truthy d.dedup_scope then d.dedup_scope.getD "" else "pending")
                it.status).isSome) = true
    · rw [if_pos hdup] at hnot
      exact absurd rfl hnot
    · rw [if_neg hdup] at hnot ⊢
      exact ⟨rfl, rfl⟩

/-! ### Retry-bound invariant for the queue engine (claim C3)

A trace of client operations against the queue engine, instrumented with
the ids each dequeue returns. -/

/-- One queue-ops call. -/
inductive QOp where
  | enqueue (queue payload : String) (priority : Int) (maxAttempts : Option Nat)
  | dequeue (now : Nat) (queue : String) (count : Nat)
  | done (now : Nat) (id : Nat)
  | fail (now : Nat) (id : Nat) (err : Option String)

/-- Apply one operation; the second component is the list of item ids a
dequeue returned (empty for the other operations). -/
def applyOp (evalPath : String → String → Option (List String)) (st : QState) :
    QOp → QState × List Nat
  | .enqueue q p pr ma => ((enqueue evalPath st q p pr ma).2, [])
  | .dequeue now q c =>
      let r := dequeue now st q c
      (r.2, r.1.map Prod.fst)
  | .done now id => (doneOp now st id, [])
  | .fail now id err => (failOp now st id err, [])

/-- Apply a list of operations, concatenating all dequeued ids. -/
def applyTrace (evalPath : String → String → Option (List String))
    (st : QState) : List QOp → QState × List Nat
  | [] => (st, [])
  | op :: ops =>
      let r := applyOp evalPath st op
      let rest := applyTrace evalPath r.1 ops
      (rest.1, r.2 ++ rest.2)

/-- The attempts counter of the item with the given id (0 when absent). -/
def attemptsOf (st : QState) (id : Nat) : Nat :=
  match findItem st id with
  | some it => it.attempts
  | none => 0

/-- Per-row invariant: attempts bounded by max_attempts, max_attempts at
least one, pending rows strictly below the bound, failed rows at the bound. -/
def ItemInv (it : QueueItemRow) : Prop :=
  it.attempts ≤ it.max_attempts ∧ 1 ≤ it.max_attempts
    ∧ (it.status = .pending → it.attempts < it.max_attempts)
    ∧ (it.status = .failed → it.max_attempts ≤ it.attempts)

/-- State invariant: distinct ids below the AUTOINCREMENT counter, each
row satisfying `ItemInv`, and every definition's max_attempts positive. -/
def QInv (st : QState) : Prop :=
  (st.items.map fun it => it.id).Nodup
    ∧ (∀ it ∈ st.items, ItemInv it ∧ it.id < st.nextId)
    ∧ (∀ d ∈ st.defs, ∀ n, d.max_attempts = some n → 1 ≤ n)

/-- Operation validity: enqueue overrides of max_attempts are positive
(the claim assumes max_attempts = N with N at least 1). -/
def ValidOp : QOp → Prop
  | .enqueue _ _ _ ma => ∀ n, ma = some n → 1 ≤ n
  | _ => True

/-- insertPoll is a permutation of consing. -/
theorem insertPoll_perm (x : QueueItemRow) (l : List QueueItemRow) :
    (insertPoll x l).Perm (x :: l) := by
  induction l with
  | nil => simp [insertPoll]
  | cons y ys ih =>
      by_cases h : pollLe x y
      · simp [insertPoll, h]
      · simp only [insertPoll, h, Bool.false_eq_true, if_false]
        exact (ih.cons y).trans (List.Perm.swap x y ys)

/-- sortPoll permutes its input. -/
theorem sortPoll_perm (l : List QueueItemRow) : (sortPoll l).Perm l := by
  induction l with
  | nil => simp [sortPoll]
  | cons x xs ih => exact (insertPoll_perm x (sortPoll xs)).trans (ih.cons x)

/-- Rows selected by the dequeue SELECT are pending rows of the table. -/
theorem dequeueSelect_mem (st : QState) (q : String) (c : Nat)
    (it : QueueItemRow) (h : it ∈ dequeueSelect st q c) :
    it ∈ st.items ∧ it.queue_id = q ∧ it.status = .pending := by
  have h1 : it ∈ sortPoll (st.items.filter fun x =>
      x.queue_id == q && x.status == .pending) := List.mem_of_mem_take h
  have h2 := (sortPoll_perm _).mem_iff.mp h1
  have h3 := List.mem_filter.mp h2
  refine ⟨h3.1, ?_, ?_⟩
  · have := h3.2
    simp only [Bool.and_eq_true, beq_iff_eq] at this
    exact this.1
  · have := h3.2
    simp only [Bool.and_eq_true, beq_iff_eq] at this
    exact this.2

/-- The ids selected by the dequeue SELECT are distinct when the table
ids are. -/
theorem dequeueSelect_nodup (st : QState) (q : String) (c : Nat)
    (hnd : (st.items.map fun it => it.id).Nodup) :
    ((dequeueSelect st q c).map fun it => it.id).Nodup := by
  have hfil : ((st.items.filter fun x =>
      x.queue_id == q && x.status == .pending).map fun it => it.id).Nodup :=
    hnd.sublist ((List.filter_sublist _).map _)
  have hsort : ((sortPoll (st.items.filter fun x =>
      x.queue_id == q && x.status == .pending)).map fun it => it.id).Nodup :=
    (((sortPoll_perm _).map _).nodup_iff).mpr hfil
  exact hsort.sublist ((List.take_sublist _ _).map _)

/-- Two rows of a table with distinct ids are equal when their ids agree. -/
theorem eq_of_id_eq (st : QState) (hnd : (st.items.map fun it => it.id).Nodup)
    (a b : QueueItemRow) (ha : a ∈ st.items) (hb : b ∈ st.items)
    (h : a.id = b.id) : a = b :=
  List.inj_on_of_nodup_map hnd ha hb h

/-- enqueue either leaves the table unchanged (dedup skip) or appends
one pending row with the computed max_attempts. -/
theorem enqueue_shape (ev : String → String → Option (List String))
    (st : QState) (q p : String) (pr : Int) (ma : Option Nat) :
    (enqueue ev st q p pr ma).2 = st ∨
    ∃ dk, (enqueue ev st q p pr ma).2 =
      { st with
          items := st.items ++
            [enqueueRow st q p pr
              ((ma.orElse fun _ =>
                (st.defs.find? fun d => d.id == q).bind fun d => d.max_attempts).getD 1) dk]
          nextId := st.nextId + 1 } := by
  simp only [enqueue, enqueueRow]
  split
  · exact Or.inl rfl
  · exact Or.inr ⟨_, rfl⟩

/-- The max_attempts enqueue computes is positive under the validity
hypotheses. -/
theorem enqueue_max_pos (st : QState) (q : String) (ma : Option Nat)
    (hdefs : ∀ d ∈ st.defs, ∀ n, d.max_attempts = some n → 1 ≤ n)
    (hma : ∀ n, ma = some n → 1 ≤ n) :
    1 ≤ (ma.orElse fun _ =>
        (st.defs.find? fun d => d.id == q).bind fun d => d.max_attempts).getD 1 := by
  cases hm : ma with
  | some n =>
      have h1 := hma n hm
      simpa [Option.orElse] using h1
  | none =>
      cases hdef : st.defs.find? fun d => d.id == q with
      | none => simp [Option.orElse, hdef]
      | some d =>
          cases hdm : d.max_attempts with
          | none => simp [Option.orElse, hdef, hdm]
          | some n =>
              have hdmem : d ∈ st.defs := List.mem_of_find?_eq_some hdef
              have h1 := hdefs d hdmem n hdm
              simpa [Option.orElse, hdef, hdm] using h1

/-- Step lemma for enqueue: the invariant is preserved and no attempts
counter changes. -/
theorem enqueue_step (ev : String → String → Option (List String))
    (st : QState) (q p : String) (pr : Int) (ma : Option Nat)
    (hinv : QInv st) (hma : ∀ n, ma = some n → 1 ≤ n) :
    QInv (enqueue ev st q p pr ma).2 ∧
    ∀ id, attemptsOf (enqueue ev st q p pr ma).2 id = attemptsOf st id := by
  obtain ⟨hnd, hitems, hdefs⟩ := hinv
  rcases enqueue_shape ev st q p pr ma with h | ⟨dk, h⟩
  · rw [h]
    exact ⟨⟨hnd, hitems, hdefs⟩, fun id => rfl⟩
  · rw [h]
    have hmax1 := enqueue_max_pos st q ma hdefs hma
    constructor
    · refine ⟨?_, ?_, hdefs⟩
      · rw [List.map_append, List.nodup_append]
        refine ⟨hnd, List.nodup_singleton _, ?_⟩
        intro a ha
        simp only [List.map_cons, List.map_nil, List.mem_singleton]
        simp only [List.mem_map] at ha
        obtain ⟨it, hit, hid⟩ := ha
        have := (hitems it hit).2
        simp only [enqueueRow]
        omega
      · intro it hit
        rcases List.mem_append.mp hit with hmem | hmem
        · exact ⟨(hitems it hmem).1, Nat.lt_succ_of_lt (hitems it hmem).2⟩
        · have hrow : it = enqueueRow st q p pr
              ((ma.orElse fun _ =>
                (st.defs.find? fun d => d.id == q).bind fun d => d.max_attempts).getD 1) dk := by
            simpa using hmem
          subst hrow
          refine ⟨⟨Nat.zero_le _, hmax1, fun _ => hmax1, fun hst => ?_⟩, Nat.lt_succ_self _⟩
          · exact absurd hst (by simp [enqueueRow])
    · intro id
      show attemptsOf _ id = _
      unfold attemptsOf findItem
      simp only []
      rw [List.find?_append]
      cases hf : st.items.find? fun it => it.id == id with
      | some it => simp [Option.or]
      | none =>
          simp only [Option.or]
          by_cases hid : st.nextId == id
          · simp [List.find?, enqueueRow, hid]
          · simp [List.find?, enqueueRow, hid]

/-- A row of the table whose id was selected by dequeue is the selected
row itself (ids are distinct), hence pending. -/
theorem mem_selected_of_contains (st : QState) (q : String) (c : Nat)
    (hnd : (st.items.map fun it => it.id).Nodup)
    (x : QueueItemRow) (hx : x ∈ st.items)
    (hc : ((dequeueSelect st q c).map fun r => r.id).contains x.id = true) :
    x ∈ dequeueSelect st q c ∧ x.status = .pending := by
  have hmem : x.id ∈ (dequeueSelect st q c).map fun r => r.id := List.elem_iff.mp hc
  obtain ⟨y, hy, hyid⟩ := List.mem_map.mp hmem
  obtain ⟨hyitems, _, hypend⟩ := dequeueSelect_mem st q c y hy
  have hxy : y = x := eq_of_id_eq st hnd y x hyitems hx hyid
  subst hxy
  exact ⟨hy, hypend⟩

/-- The row transformation dequeue applies to the table: claim the rows
whose id was selected, keep the rest. -/
def dequeueMark (now : Nat) (st : QState) (q : String) (c : Nat)
    (it : QueueItemRow) : QueueItemRow :=
  if ((dequeueSelect st q c).map fun r => r.id).contains it.id
  then claimUpdate now it else it

/-- dequeue in terms of dequeueMark. -/
theorem dequeue_eq_mark (now : Nat) (st : QState) (q : String) (c : Nat) :
    (dequeue now st q c).2.items = st.items.map (dequeueMark now st q c)
      ∧ (dequeue now st q c).2.defs = st.defs
      ∧ (dequeue now st q c).2.nextId = st.nextId
      ∧ (dequeue now st q c).1.map Prod.fst = (dequeueSelect st q c).map fun r => r.id := by
  refine ⟨rfl, rfl, rfl, ?_⟩
  simp [dequeue]

/-- Step lemma for dequeue: the invariant is preserved, the returned ids
are distinct ids of previously pending rows, and each attempts counter
grows by the number of times (0 or 1) its id was returned. -/
theorem dequeue_step (now : Nat) (st : QState) (q : String) (c : Nat)
    (hinv : QInv st) :
    QInv (dequeue now st q c).2 ∧
    ((dequeue now st q c).1.map Prod.fst).Nodup ∧
    (∀ id, attemptsOf (dequeue now st q c).2 id
        = attemptsOf st id + ((dequeue now st q c).1.map Prod.fst).count id) ∧
    (∀ id ∈ (dequeue now st q c).1.map Prod.fst,
        ∃ it ∈ st.items, it.id = id ∧ it.status = .pending) := by
  obtain ⟨hnd, hitems, hdefs⟩ := hinv
  obtain ⟨hsit, hsdefs, hsnext, hids⟩ := dequeue_eq_mark now st q c
  have hidsnd : ((dequeueSelect st q c).map fun r => r.id).Nodup :=
    dequeueSelect_nodup st q c hnd
  have hmarkid : ∀ x : QueueItemRow, (dequeueMark now st q c x).id = x.id := by
    intro x
    unfold dequeueMark
    by_cases hx : ((dequeueSelect st q c).map fun r => r.id).contains x.id = true
    · rw [if_pos hx]
      rfl
    · rw [if_neg hx]
  have hpres : ∀ (k : Nat) (x : QueueItemRow),
      ((dequeueMark now st q c x).id == k) = (x.id == k) := by
    intro k x
    rw [hmarkid]
  refine ⟨?_, ?_, ?_, ?_⟩
  · refine ⟨?_, ?_, ?_⟩
    · rw [hsit]
      have hmapid : (st.items.map (dequeueMark now st q c)).map (fun it => it.id)
          = st.items.map fun it => it.id := by
        rw [List.map_map]
        exact List.map_congr_left fun x _ => hmarkid x
      rw [hmapid]
      exact hnd
    · intro it hit
      rw [hsit] at hit
      obtain ⟨x, hx, hfx⟩ := List.mem_map.mp hit
      rw [hsnext]
      unfold dequeueMark at hfx
      by_cases hc : ((dequeueSelect st q c).map fun r => r.id).contains x.id
      · obtain ⟨_, hxpend⟩ := mem_selected_of_contains st q c hnd x hx hc
        have hxinv := (hitems x hx).1
        rw [← hfx]
        simp only [hc, if_true]
        refine ⟨⟨?_, hxinv.2.1, ?_, ?_⟩, ?_⟩
        · exact hxinv.2.2.1 hxpend
        · intro hcon
          exact absurd hcon (by simp [claimUpdate])
        · intro hcon
          exact absurd hcon (by simp [claimUpdate])
        · simpa [claimUpdate] using (hitems x hx).2
      · rw [← hfx]
        simp only [hc, Bool.false_eq_true, if_false]
        exact hitems x hx
    · rw [hsdefs]
      exact hdefs
  · rw [hids]
    exact hidsnd
  · intro id
    rw [hids]
    have hfind : findItem (dequeue now st q c).2 id
        = (findItem st id).map (dequeueMark now st q c) := by
      unfold findItem
      rw [hsit]
      exact find?_map_of_pres _ _ _ (hpres id)
    unfold attemptsOf
    rw [hfind]
    cases hf : findItem st id with
    | none =>
        have hnotmem : id ∉ (dequeueSelect st q c).map fun r => r.id := by
          intro hmem
          obtain ⟨y, hy, hyid⟩ := List.mem_map.mp hmem
          obtain ⟨hyitems, _, _⟩ := dequeueSelect_mem st q c y hy
          have hcontra := (List.find?_eq_none.mp hf) y hyitems
          simp [hyid] at hcontra
        rw [List.count_eq_zero_of_not_mem hnotmem]
        rfl
    | some it =>
        have hitid : it.id = id := by
          simpa using List.find?_some hf
        unfold dequeueMark
        by_cases hc : ((dequeueSelect st q c).map fun r => r.id).contains it.id = true
        · have hmem : id ∈ (dequeueSelect st q c).map fun r => r.id := by
            rw [← hitid]
            exact List.elem_iff.mp hc
          rw [List.count_eq_one_of_mem hidsnd hmem]
          simp only [Option.map]
          rw [if_pos hc]
          rfl
        · have hnotmem : id ∉ (dequeueSelect st q c).map fun r => r.id := by
            rw [← hitid]
            intro hmem
            exact hc (List.elem_iff.mpr hmem)
          rw [List.count_eq_zero_of_not_mem hnotmem]
          simp only [Option.map]
          rw [if_neg hc]
          omega
  · intro id hid
    rw [hids] at hid
    obtain ⟨y, hy, hyid⟩ := List.mem_map.mp hid
    obtain ⟨hyitems, _, hypend⟩ := dequeueSelect_mem st q c y hy
    exact ⟨y, hyitems, hyid, hypend⟩

/-- The row update of done as a named function. -/
def doneMark (now : Nat) (id0 : Nat) (x : QueueItemRow) : QueueItemRow :=
  if x.id == id0 then { x with status := .done, finished_at := some now } else x

/-- The row update of the retry branch of fail. -/
def failRetryMark (err : Option String) (id0 : Nat) (x : QueueItemRow) : QueueItemRow :=
  if x.id == id0 then { x with status := .pending, error := err } else x

/-- The row update of the dead-letter branch of fail. -/
def failDeadMark (now : Nat) (err : Option String) (id0 : Nat) (x : QueueItemRow) : QueueItemRow :=
  if x.id == id0 then { x with status := .failed, finished_at := some now, error := err } else x

/-- doneOp in terms of doneMark. -/
theorem doneOp_eq_mark (now : Nat) (st : QState) (id0 : Nat) :
    doneOp now st id0 = { st with items := st.items.map (doneMark now id0) } := rfl

/-- failOp in terms of the two marks once the row is found. -/
theorem failOp_eq_mark (now : Nat) (st : QState) (id0 : Nat) (err : Option String)
    (item : QueueItemRow)
    (hfound : st.items.find? (fun x => x.id == id0) = some item) :
    failOp now st id0 err =
      if item.attempts < item.max_attempts
      then { st with items := st.items.map (failRetryMark err id0) }
      else { st with items := st.items.map (failDeadMark now err id0) } := by
  unfold failOp
  rw [hfound]
  rfl

/-- Invariance of the id map under an id-preserving row update. -/
theorem nodup_map_pres (st : QState) (f : QueueItemRow → QueueItemRow)
    (hid : ∀ x, (f x).id = x.id)
    (hnd : (st.items.map fun it => it.id).Nodup) :
    ((st.items.map f).map fun it => it.id).Nodup := by
  rw [List.map_map]
  have heq : st.items.map ((fun it => it.id) ∘ f) = st.items.map fun it => it.id :=
    List.map_congr_left fun x _ => hid x
  rw [heq]
  exact hnd

/-- attemptsOf is invariant under id- and attempts-preserving row updates. -/
theorem attemptsOf_map_pres (st : QState) (f : QueueItemRow → QueueItemRow)
    (hid : ∀ x, (f x).id = x.id) (hatt : ∀ x, (f x).attempts = x.attempts) :
    ∀ id, attemptsOf { st with items := st.items.map f } id = attemptsOf st id := by
  intro id
  unfold attemptsOf findItem
  show (match (st.items.map f).find? (fun x => x.id == id) with
        | some x => x.attempts
        | none => 0) = _
  rw [find?_map_of_pres f (fun x => x.id == id) st.items (fun x => by simp only [hid])]
  cases hf : st.items.find? fun x => x.id == id with
  | none => rfl
  | some it =>
      simp only [Option.map]
      rw [hatt]

/-- QInv is preserved by an id-preserving per-row update that preserves
ItemInv on the rows it touches. -/
theorem qinv_map (st : QState) (f : QueueItemRow → QueueItemRow)
    (hid : ∀ x, (f x).id = x.id)
    (hinv : QInv st)
    (hitem : ∀ x ∈ st.items, ItemInv x → ItemInv (f x)) :
    QInv { st with items := st.items.map f } := by
  obtain ⟨hnd, hitems, hdefs⟩ := hinv
  refine ⟨nodup_map_pres st f hid hnd, ?_, hdefs⟩
  intro it hit
  obtain ⟨x, hx, hfx⟩ := List.mem_map.mp hit
  rw [← hfx]
  refine ⟨hitem x hx (hitems x hx).1, ?_⟩
  rw [hid]
  exact (hitems x hx).2

/-- Step lemma for done: invariant preserved, attempts unchanged. -/
theorem done_step (now : Nat) (st : QState) (id0 : Nat) (hinv : QInv st) :
    QInv (doneOp now st id0) ∧
    ∀ id, attemptsOf (doneOp now st id0) id = attemptsOf st id := by
  have hid : ∀ x : QueueItemRow, (doneMark now id0 x).id = x.id := by
    intro x
    unfold doneMark
    by_cases hx : (x.id == id0) = true
    · rw [if_pos hx]
    · rw [if_neg hx]
  have hatt : ∀ x : QueueItemRow, (doneMark now id0 x).attempts = x.attempts := by
    intro x
    unfold doneMark
    by_cases hx : (x.id == id0) = true
    · rw [if_pos hx]
    · rw [if_neg hx]
  rw [doneOp_eq_mark]
  constructor
  · refine qinv_map st _ hid hinv ?_
    intro x hx hxinv
    unfold doneMark
    by_cases hc : (x.id == id0) = true
    · rw [if_pos hc]
      obtain ⟨ha1, ha2, _, _⟩ := hxinv
      refine ⟨ha1, ha2, ?_, ?_⟩
      · intro hcon
        exact absurd hcon (by simp)
      · intro hcon
        exact absurd hcon (by simp)
    · rw [if_neg hc]
      exact hxinv
  · exact attemptsOf_map_pres st _ hid hatt

/-- failOp on a missing id is a no-op. -/
theorem fail_noop (now : Nat) (st : QState) (id0 : Nat) (err : Option String)
    (h : findItem st id0 = none) : failOp now st id0 err = st := by
  unfold failOp
  unfold findItem at h
  rw [h]

/-- fail semantics at the updated row: retry resets to pending keeping
the attempts counter, exhausted attempts dead-letter to failed. -/
theorem fail_semantics (now : Nat) (st : QState) (id0 : Nat) (err : Option String)
    (it : QueueItemRow) (hit : findItem st id0 = some it) :
    (it.attempts < it.max_attempts →
      findItem (failOp now st id0 err) id0
        = some { it with status := .pending, error := err }) ∧
    (it.max_attempts ≤ it.attempts →
      findItem (failOp now st id0 err) id0
        = some { it with status := .failed, finished_at := some now, error := err }) := by
  have hit2 := hit
  unfold findItem at hit2
  have hid : (it.id == id0) = true := by simpa using List.find?_some hit2
  constructor
  · intro hlt
    rw [failOp_eq_mark now st id0 err it hit2, if_pos hlt]
    show (st.items.map (failRetryMark err id0)).find? (fun x => x.id == id0) = _
    have hpres : ∀ (x : QueueItemRow),
        ((failRetryMark err id0 x).id == id0) = (x.id == id0) := by
      intro x
      unfold failRetryMark
      by_cases hx : (x.id == id0) = true
      · rw [if_pos hx]
      · rw [if_neg hx]
    rw [find?_map_of_pres _ _ _ hpres, hit2]
    simp only [Option.map]
    unfold failRetryMark
    rw [if_pos hid]
  · intro hge
    rw [failOp_eq_mark now st id0 err it hit2,
      if_neg (by omega : ¬ it.attempts < it.max_attempts)]
    show (st.items.map (failDeadMark now err id0)).find? (fun x => x.id == id0) = _
    have hpres : ∀ (x : QueueItemRow),
        ((failDeadMark now err id0 x).id == id0) = (x.id == id0) := by
      intro x
      unfold failDeadMark
      by_cases hx : (x.id == id0) = true
      · rw [if_pos hx]
      · rw [if_neg hx]
    rw [find?_map_of_pres _ _ _ hpres, hit2]
    simp only [Option.map]
    unfold failDeadMark
    rw [if_pos hid]

/-- Step lemma for fail: invariant preserved, attempts unchanged. -/
theorem fail_step (now : Nat) (st : QState) (id0 : Nat) (err : Option String)
    (hinv : QInv st) :
    QInv (failOp now st id0 err) ∧
    ∀ id, attemptsOf (failOp now st id0 err) id = attemptsOf st id := by
  cases hfound : st.items.find? fun x => x.id == id0 with
  | none =>
      rw [fail_noop now st id0 err hfound]
      exact ⟨hinv, fun id => rfl⟩
  | some item =>
      have hmemitem : item ∈ st.items := List.mem_of_find?_eq_some hfound
      have hiditem2 : item.id = id0 := by simpa using List.find?_some hfound
      have hnd := hinv.1
      rw [failOp_eq_mark now st id0 err item hfound]
      by_cases hlt : item.attempts < item.max_attempts
      · rw [if_pos hlt]
        have hid : ∀ x : QueueItemRow, (failRetryMark err id0 x).id = x.id := by
          intro x
          unfold failRetryMark
          by_cases hx : (x.id == id0) = true
          · rw [if_pos hx]
          · rw [if_neg hx]
        have hatt : ∀ x : QueueItemRow, (failRetryMark err id0 x).attempts = x.attempts := by
          intro x
          unfold failRetryMark
          by_cases hx : (x.id == id0) = true
          · rw [if_pos hx]
          · rw [if_neg hx]
        refine ⟨qinv_map st _ hid hinv ?_, attemptsOf_map_pres st _ hid hatt⟩
        intro x hx hxinv
        unfold failRetryMark
        by_cases hc : (x.id == id0) = true
        · rw [if_pos hc]
          have hxitem : x = item := by
            refine eq_of_id_eq st hnd x item hx hmemitem ?_
            rw [hiditem2]
            simpa using hc
          obtain ⟨ha1, ha2, _, _⟩ := hxinv
          refine ⟨ha1, ha2, fun _ => ?_, fun hcon => absurd hcon (by simp)⟩
          rw [hxitem]
          exact hlt
        · rw [if_neg hc]
          exact hxinv
      · rw [if_neg hlt]
        have hid : ∀ x : QueueItemRow, (failDeadMark now err id0 x).id = x.id := by
          intro x
          unfold failDeadMark
          by_cases hx : (x.id == id0) = true
          · rw [if_pos hx]
          · rw [if_neg hx]
        have hatt : ∀ x : QueueItemRow, (failDeadMark now err id0 x).attempts = x.attempts := by
          intro x
          unfold failDeadMark
          by_cases hx : (x.id == id0) = true
          · rw [if_pos hx]
          · rw [if_neg hx]
        refine ⟨qinv_map st _ hid hinv ?_, attemptsOf_map_pres st _ hid hatt⟩
        intro x hx hxinv
        unfold failDeadMark
        by_cases hc : (x.id == id0) = true
        · rw [if_pos hc]
          have hxitem : x = item := by
            refine eq_of_id_eq st hnd x item hx hmemitem ?_
            rw [hiditem2]
            simpa using hc
          obtain ⟨ha1, ha2, _, _⟩ := hxinv
          refine ⟨ha1, ha2, fun hcon => absurd hcon (by simp), fun _ => ?_⟩
          rw [hxitem]
          show item.max_attempts ≤ item.attempts
          omega
        · rw [if_neg hc]
          exact hxinv

/-- An exhausted row: attempts at the bound and a terminal status that
dequeue never selects and fail never resets. -/
def DeadOrDone (it : QueueItemRow) : Prop :=
  it.max_attempts ≤ it.attempts ∧ (it.status = .failed ∨ it.status = .done)

/-- dequeueMark preserves ids. -/
theorem dequeueMark_id (now : Nat) (st : QState) (q : String) (c : Nat) :
    ∀ x, (dequeueMark now st q c x).id = x.id := by
  intro x
  unfold dequeueMark
  by_cases hx : ((dequeueSelect st q c).map fun r => r.id).contains x.id = true
  · rw [if_pos hx]
    rfl
  · rw [if_neg hx]

/-- enqueue does not change the row an id already resolves to. -/
theorem enqueue_findItem_pres (ev : String → String → Option (List String))
    (st : QState) (q p : String) (pr : Int) (ma : Option Nat)
    (id : Nat) (it : QueueItemRow) (hit : findItem st id = some it) :
    findItem (enqueue ev st q p pr ma).2 id = some it := by
  rcases enqueue_shape ev st q p pr ma with h | ⟨dk, h⟩ <;> rw [h]
  · exact hit
  · unfold findItem at hit ⊢
    show (st.items ++ [_]).find? _ = _
    rw [List.find?_append, hit]
    rfl

/-- One operation can neither dequeue an exhausted row nor revive it. -/
theorem dead_op (ev : String → String → Option (List String)) (op : QOp)
    (st : QState) (id : Nat) (it : QueueItemRow)
    (hinv : QInv st) (hit : findItem st id = some it) (hd : DeadOrDone it) :
    id ∉ (applyOp ev st op).2 ∧
    ∃ it2, findItem (applyOp ev st op).1 id = some it2 ∧ DeadOrDone it2 := by
  have hit2 := hit
  unfold findItem at hit2
  have hmem : it ∈ st.items := List.mem_of_find?_eq_some hit2
  have hitid : it.id = id := by simpa using List.find?_some hit2
  cases op with
  | enqueue q p pr ma =>
      exact ⟨by simp [applyOp],
        it, enqueue_findItem_pres ev st q p pr ma id it hit, hd⟩
  | dequeue now q c =>
      obtain ⟨hsit, _, _, hids⟩ := dequeue_eq_mark now st q c
      have hnd := hinv.1
      have hnc : ¬ ((dequeueSelect st q c).map fun r => r.id).contains it.id = true := by
        intro hc
        obtain ⟨_, hpend⟩ := mem_selected_of_contains st q c hnd it hmem hc
        rcases hd.2 with h | h <;> rw [h] at hpend <;> cases hpend
      constructor
      · show id ∉ (dequeue now st q c).1.map Prod.fst
        rw [hids]
        intro hmm
        rw [← hitid] at hmm
        exact hnc (List.elem_iff.mpr hmm)
      · refine ⟨it, ?_, hd⟩
        show findItem (dequeue now st q c).2 id = some it
        unfold findItem
        rw [hsit]
        rw [find?_map_of_pres _ _ _
          (fun x => by simp only [dequeueMark_id now st q c x])]
        rw [hit2]
        simp only [Option.map]
        unfold dequeueMark
        rw [if_neg hnc]
  | done now id0 =>
      refine ⟨by simp [applyOp], ?_⟩
      show ∃ it2, findItem (doneOp now st id0) id = some it2 ∧ DeadOrDone it2
      rw [doneOp_eq_mark]
      have hpres : ∀ (x : QueueItemRow), ((doneMark now id0 x).id == id) = (x.id == id) := by
        intro x
        unfold doneMark
        by_cases hx : (x.id == id0) = true
        · rw [if_pos hx]
        · rw [if_neg hx]
      unfold findItem
      show ∃ it2, (st.items.map (doneMark now id0)).find? (fun x => x.id == id) = some it2 ∧ _
      rw [find?_map_of_pres _ _ _ hpres, hit2]
      simp only [Option.map]
      unfold doneMark
      by_cases hc : (it.id == id0) = true
      · rw [if_pos hc]
        exact ⟨_, rfl, hd.1, Or.inr rfl⟩
      · rw [if_neg hc]
        exact ⟨it, rfl, hd⟩
  | fail now id0 err =>
      refine ⟨by simp [applyOp], ?_⟩
      show ∃ it2, findItem (failOp now st id0 err) id = some it2 ∧ DeadOrDone it2
      cases hfound : st.items.find? fun x => x.id == id0 with
      | none =>
          rw [fail_noop now st id0 err hfound]
          exact ⟨it, hit, hd⟩
      | some item =>
          rw [failOp_eq_mark now st id0 err item hfound]
          by_cases hlt : item.attempts < item.max_attempts
          · rw [if_pos hlt]
            have hpres : ∀ (x : QueueItemRow),
                ((failRetryMark err id0 x).id == id) = (x.id == id) := by
              intro x
              unfold failRetryMark
              by_cases hx : (x.id == id0) = true
              · rw [if_pos hx]
              · rw [if_neg hx]
            unfold findItem
            show ∃ it2, (st.items.map (failRetryMark err id0)).find?
                (fun x => x.id == id) = some it2 ∧ _
            rw [find?_map_of_pres _ _ _ hpres, hit2]
            simp only [Option.map]
            unfold failRetryMark
            by_cases hc : (it.id == id0) = true
            · exfalso
              have hideq : id = id0 := by
                rw [← hitid]
                simpa using hc
              subst hideq
              have hsame : some item = some it := hfound.symm.trans hit2
              have hii : item = it := Option.some.inj hsame
              rw [hii] at hlt
              have := hd.1
              omega
            · rw [if_neg hc]
              exact ⟨it, rfl, hd⟩
          · rw [if_neg hlt]
            have hpres : ∀ (x : QueueItemRow),
                ((failDeadMark now err id0 x).id == id) = (x.id == id) := by
              intro x
              unfold failDeadMark
              by_cases hx : (x.id == id0) = true
              · rw [if_pos hx]
              · rw [if_neg hx]
            unfold findItem
            show ∃ it2, (st.items.map (failDeadMark now err id0)).find?
                (fun x => x.id == id) = some it2 ∧ _
            rw [find?_map_of_pres _ _ _ hpres, hit2]
            simp only [Option.map]
            unfold failDeadMark
            by_cases hc : (it.id == id0) = true
            · rw [if_pos hc]
              exact ⟨_, rfl, hd.1, Or.inl rfl⟩
            · rw [if_neg hc]
              exact ⟨it, rfl, hd⟩

/-- One valid operation preserves the invariant and adds to each
attempts counter the number of times (0 or 1) its id was dequeued. -/
theorem applyOp_step (ev : String → String → Option (List String)) (op : QOp)
    (st : QState) (hinv : QInv st) (hvalid : ValidOp op) :
    QInv (applyOp ev st op).1 ∧
    ∀ id, attemptsOf (applyOp ev st op).1 id
        = attemptsOf st id + (applyOp ev st op).2.count id := by
  cases op with
  | enqueue q p pr ma =>
      obtain ⟨h1, h2⟩ := enqueue_step ev st q p pr ma hinv hvalid
      refine ⟨h1, fun id => ?_⟩
      show attemptsOf (enqueue ev st q p pr ma).2 id = attemptsOf st id + List.count id []
      rw [h2 id]
      rfl
  | dequeue now q c =>
      obtain ⟨h1, _, h3, _⟩ := dequeue_step now st q c hinv
      exact ⟨h1, h3⟩
  | done now id0 =>
      obtain ⟨h1, h2⟩ := done_step now st id0 hinv
      refine ⟨h1, fun id => ?_⟩
      show attemptsOf (doneOp now st id0) id = attemptsOf st id + List.count id []
      rw [h2 id]
      rfl
  | fail now id0 err =>
      obtain ⟨h1, h2⟩ := fail_step now st id0 err hinv
      refine ⟨h1, fun id => ?_⟩
      show attemptsOf (failOp now st id0 err) id = attemptsOf st id + List.count id []
      rw [h2 id]
      rfl

/-- Along a valid trace, the invariant is preserved and the number of
times an id was dequeued is exactly the growth of its attempts counter. -/
theorem applyTrace_inv (ev : String → String → Option (List String)) :
    ∀ (ops : List QOp) (st : QState), QInv st → (∀ op ∈ ops, ValidOp op) →
    QInv (applyTrace ev st ops).1 ∧
    ∀ id, attemptsOf (applyTrace ev st ops).1 id
        = attemptsOf st id + (applyTrace ev st ops).2.count id := by
  intro ops
  induction ops with
  | nil =>
      intro st hinv _
      exact ⟨hinv, fun id => rfl⟩
  | cons op ops ih =>
      intro st hinv hvalid
      obtain ⟨h1, h2⟩ := applyOp_step ev op st hinv (hvalid op (List.mem_cons_self op ops))
      obtain ⟨h3, h4⟩ := ih (applyOp ev st op).1 h1
        (fun o ho => hvalid o (List.mem_cons_of_mem op ho))
      refine ⟨h3, fun id => ?_⟩
      show attemptsOf (applyTrace ev (applyOp ev st op).1 ops).1 id
          = attemptsOf st id
            + ((applyOp ev st op).2 ++ (applyTrace ev (applyOp ev st op).1 ops).2).count id
      rw [List.count_append, h4 id, h2 id]
      omega

/-- Along any valid trace, an exhausted row is never dequeued again and
stays exhausted. -/
theorem dead_trace (ev : String → String → Option (List String)) :
    ∀ (ops : List QOp) (st : QState) (id : Nat) (it : QueueItemRow),
    QInv st → (∀ op ∈ ops, ValidOp op) →
    findItem st id = some it → DeadOrDone it →
    id ∉ (applyTrace ev st ops).2 ∧
    ∃ it2, findItem (applyTrace ev st ops).1 id = some it2 ∧ DeadOrDone it2 := by
  intro ops
  induction ops with
  | nil =>
      intro st id it hinv _ hit hd
      exact ⟨by simp [applyTrace], it, hit, hd⟩
  | cons op ops ih =>
      intro st id it hinv hvalid hit hd
      obtain ⟨hno, it2, hit2, hd2⟩ := dead_op ev op st id it hinv hit hd
      have hinv2 : QInv (applyOp ev st op).1 :=
        (applyOp_step ev op st hinv (hvalid op (List.mem_cons_self op ops))).1
      obtain ⟨hno2, hrest⟩ := ih (applyOp ev st op).1 id it2 hinv2
        (fun o ho => hvalid o (List.mem_cons_of_mem op ho)) hit2 hd2
      constructor
      · show id ∉ (applyOp ev st op).2 ++ (applyTrace ev (applyOp ev st op).1 ops).2
        intro hmm
        rcases List.mem_append.mp hmm with h | h
        · exact hno h
        · exact hno2 h
      · exact hrest

/-- C3: on a queue item with max_attempts = N, N at least 1: every
dequeue that claims the item increments its attempts by exactly one;
fail with attempts at the bound dead-letters the item to failed (and it
is never dequeued again along any valid trace), fail below the bound
resets it to pending with the error recorded and attempts unchanged;
consequently an item starting absent is dequeued at most N times. -/
theorem queue_retry_bound :
    (∀ now st q c, QInv st → ∀ pr ∈ (dequeue now st q c).1,
        attemptsOf (dequeue now st q c).2 pr.1 = attemptsOf st pr.1 + 1) ∧
    (∀ now st id0 err it, findItem st id0 = some it →
        (it.attempts < it.max_attempts →
          findItem (failOp now st id0 err) id0
            = some { it with status := .pending, error := err }) ∧
        (it.max_attempts ≤ it.attempts →
          findItem (failOp now st id0 err) id0
            = some { it with status := .failed, finished_at := some now, error := err })) ∧
    (∀ ev ops st, QInv st → (∀ op ∈ ops, ValidOp op) →
        ∀ id,
          (findItem st id = none →
            ∀ it2, findItem (applyTrace ev st ops).1 id = some it2 →
              (applyTrace ev st ops).2.count id ≤ it2.max_attempts) ∧
          (findItem (applyTrace ev st ops).1 id = none →
            (applyTrace ev st ops).2.count id = 0)) ∧
    (∀ ev ops now st id0 err it, QInv st → (∀ op ∈ ops, ValidOp op) →
        findItem st id0 = some it → it.max_attempts ≤ it.attempts →
        id0 ∉ (applyTrace ev (failOp now st id0 err) ops).2) := by
  refine ⟨?_, ?_, ?_, ?_⟩
  · intro now st q c hinv pr hpr
    obtain ⟨_, hnd2, h3, _⟩ := dequeue_step now st q c hinv
    have hmem : pr.1 ∈ (dequeue now st q c).1.map Prod.fst :=
      List.mem_map.mpr ⟨pr, hpr, rfl⟩
    rw [h3 pr.1, List.count_eq_one_of_mem hnd2 hmem]
  · intro now st id0 err it hit
    exact fail_semantics now st id0 err it hit
  · intro ev ops st hinv hvalid id
    obtain ⟨hfin, hatt⟩ := applyTrace_inv ev ops st hinv hvalid
    constructor
    · intro hnone it2 hit2
      have h0 : attemptsOf st id = 0 := by
        unfold attemptsOf
        rw [hnone]
      have hfinal : attemptsOf (applyTrace ev st ops).1 id = it2.attempts := by
        unfold attemptsOf
        rw [hit2]
      have hmem : it2 ∈ (applyTrace ev st ops).1.items := by
        have := hit2
        unfold findItem at this
        exact List.mem_of_find?_eq_some this
      have hbound : it2.attempts ≤ it2.max_attempts := ((hfin.2.1 it2 hmem).1).1
      have heq := hatt id
      rw [h0, hfinal] at heq
      omega
    · intro hnone
      have hfinal : attemptsOf (applyTrace ev st ops).1 id = 0 := by
        unfold attemptsOf
        rw [hnone]
      have heq := hatt id
      rw [hfinal] at heq
      omega
  · intro ev ops now st id0 err it hinv hvalid hit hge
    have hfs := (fail_semantics now st id0 err it hit).2 hge
    have hinv2 : QInv (failOp now st id0 err) := (fail_step now st id0 err hinv).1
    have hd : DeadOrDone { it with status := .failed, finished_at := some now, error := err } := by
      refine ⟨?_, Or.inl rfl⟩
      show it.max_attempts ≤ it.attempts
      exact hge
    exact (dead_trace ev ops (failOp now st id0 err) id0 _ hinv2 hvalid hfs hd).1

/-! ## Scheduler / run controller (src/scheduler/scheduler.ts)

The model splits runJob at its await point: `runJobStart` is the
synchronous prefix (concurrency check, `runningJobs.add`, `createRun`
inserting the running row), `runJobFinish` is the continuation after the
executor resolves (type dispatch - a session job without a gateway
client throws -, `finishRun`, and the finally block removing the id from
`runningJobs`).  The awaited executor result is the oracle `execResult`;
`executeJob` and `executeSession` never reject (both resolve error
results), so the only throw between createRun and finishRun is the
missing-gateway dispatch error. -/

/-- Job overlap policies. -/
inductive OverlapPolicy where
  | skip
  | queue
  | allow
deriving DecidableEq, Repr

/-- Job types. -/
inductive JobType where
  | script
  | session
deriving DecidableEq, Repr

/-- A row of the jobs table (fields the scheduler reads). -/
structure JobRow where
  id : String
  name : String
  schedule : String
  script : String
  type : JobType
  timeout_ms : Option Nat
  overlap_policy : OverlapPolicy
  on_failure : Option String
  on_success : Option String
deriving DecidableEq, Repr

/-- Run row statuses the scheduler writes. -/
inductive RunStatus where
  | running
  | ok
  | error
  | timeout
deriving DecidableEq, Repr

/-- ExecutionResult statuses (always terminal). -/
inductive ExecStatus where
  | ok
  | error
  | timeout
deriving DecidableEq, Repr

/-- The run status a finished execution writes. -/
def ExecStatus.toRun : ExecStatus → RunStatus
  | .ok => .ok
  | .error => .error
  | .timeout => .timeout

/-- The executor result fields finishRun stores (reduced to the ones the
claims observe). -/
structure ExecResult where
  status : ExecStatus
  error : Option String
deriving DecidableEq, Repr

/-- A row of the runs table (fields the claims observe). -/
structure RunRow where
  id : Nat
  job_id : String
  status : RunStatus
  trigger : String
  error : Option String
deriving DecidableEq, Repr

/-- Scheduler state: the in-memory runningJobs set, the runs table, and
its AUTOINCREMENT counter. -/
structure SchedState where
  runningJobs : List String
  runs : List RunRow
  nextRunId : Nat
deriving DecidableEq, Repr

/-- JS Set.add on the runningJobs set. -/
def addRunning (id : String) (s : List String) : List String :=
  if s.contains id then s else s ++ [id]

/-- JS Set.delete on the runningJobs set. -/
def removeRunning (id : String) (s : List String) : List String :=
  s.filter fun x => !(x == id)

/-- createRun: INSERT INTO runs (job_id, status, started_at, trigger)
VALUES (?, running, now, ?); returns lastInsertRowid. -/
def createRun (st : SchedState) (jobId : String) (trigger : String) :
    Nat × SchedState :=
  (st.nextRunId,
    { st with
        runs := st.runs ++
          [{ id := st.nextRunId, job_id := jobId, status := .running
             trigger := trigger, error := none }]
        nextRunId := st.nextRunId + 1 })

/-- The row update of finishRun. -/
def finishMark (runId : Nat) (res : ExecResult) (r : RunRow) : RunRow :=
  if r.id == runId then { r with status := res.status.toRun, error := res.error } else r

/-- finishRun: UPDATE runs SET status = ?, ..., error = ? WHERE id = ?. -/
def finishRun (st : SchedState) (runId : Nat) (res : ExecResult) : SchedState :=
  { st with runs := st.runs.map (finishMark runId res) }

/-- The synchronous prefix of runJob: concurrency admission,
runningJobs.add, createRun inserting the running row. -/
def runJobStart (maxConcurrency : Nat) (job : JobRow) (trigger : String)
    (st : SchedState) : Except String (Nat × SchedState) :=
  if maxConcurrency ≤ st.runningJobs.length then
    .error "Max concurrency reached"
  else
    .ok (createRun { st with runningJobs := addRunning job.id st.runningJobs }
      job.id trigger)

/-- The continuation of runJob after the executor settles: the session
dispatch guard, finishRun, and the finally block.  When a session job
has no gateway client the throw propagates - the finally block removes
the id from runningJobs but the run row is never updated. -/
def runJobFinish (hasGateway : Bool) (execResult : ExecResult) (job : JobRow)
    (runId : Nat) (st : SchedState) : Except String ExecResult × SchedState :=
  if job.type == .session && !hasGateway then
    (.error "Session job requires Gateway client (gateway.tokenPath not configured)",
      { st with runningJobs := removeRunning job.id st.runningJobs })
  else
    let st2 := finishRun st runId execResult
    (.ok execResult, { st2 with runningJobs := removeRunning job.id st2.runningJobs })

/-- runJob as a whole (the trace where the run completes without
interleaving). -/
def runJob (maxConcurrency : Nat) (hasGateway : Bool) (execResult : ExecResult)
    (job : JobRow) (trigger : String) (st : SchedState) :
    Except String ExecResult × SchedState :=
  match runJobStart maxConcurrency job trigger st with
  | .error e => (.error e, st)
  | .ok r => runJobFinish hasGateway execResult job r.1 r.2

/-- onScheduledRun: the overlap check (only on the scheduled path),
then runJob with trigger schedule whose error is caught and logged. -/
def onScheduledRun (maxConcurrency : Nat) (hasGateway : Bool)
    (execResult : ExecResult) (job : JobRow) (st : SchedState) : SchedState :=
  if st.runningJobs.contains job.id then
    match job.overlap_policy with
    | .skip => st
    | .queue => st
    | .allow => (runJob maxConcurrency hasGateway execResult job "schedule" st).2
  else (runJob maxConcurrency hasGateway execResult job "schedule" st).2

/-- The admission phase of triggerJob: SELECT the job (NotFound when
absent), then runJobStart with trigger manual - no overlap check. -/
def triggerJobStart (maxConcurrency : Nat) (jobs : List JobRow) (jobId : String)
    (st : SchedState) : Except String (Nat × SchedState) :=
  match jobs.find? fun j => j.id == jobId with
  | none => .error ("Job not found: " ++ jobId)
  | some job => runJobStart maxConcurrency job "manual" st

/-- triggerJob as a whole. -/
def triggerJob (maxConcurrency : Nat) (hasGateway : Bool) (execResult : ExecResult)
    (jobs : List JobRow) (jobId : String) (st : SchedState) :
    Except String ExecResult × SchedState :=
  match jobs.find? fun j => j.id == jobId with
  | none => (.error ("Job not found: " ++ jobId), st)
  | some job => runJob maxConcurrency hasGateway execResult job "manual" st

/-- Number of rows of the job currently in status running. -/
def countRunning (st : SchedState) (jobId : String) : Nat :=
  (st.runs.filter fun r => r.job_id == jobId && r.status == .running).length

/-- A skip-policy script job used as concrete input. -/
def jobSkipEx : JobRow :=
  { id := "j", name := "J", schedule := "* * * * *", script := "run.js"
    type := .script, timeout_ms := none, overlap_policy := .skip
    on_failure := none, on_success := none }

/-- A scheduler state in which jobSkipEx is mid-run: its id is in the
running set and its run row is open. -/
def schedStateEx : SchedState :=
  { runningJobs := ["j"]
    runs := [{ id := 1, job_id := "j", status := .running, trigger := "schedule", error := none }]
    nextRunId := 2 }

/-- C1 counterexample: the job has overlap policy skip and is already
running (one running row, id in the running set), yet the manual trigger
path admits it - runJobStart succeeds and inserts a second row in status
running, so two runs of the job are concurrently running. -/
theorem manual_trigger_bypasses_skip_overlap :
    jobSkipEx.overlap_policy = .skip ∧
    schedStateEx.runningJobs.contains jobSkipEx.id = true ∧
    countRunning schedStateEx "j" = 1 ∧
    (triggerJobStart 4 [jobSkipEx] "j" schedStateEx).toOption.map
        (fun r => countRunning r.2 "j") = some 2 := by
  refine ⟨rfl, rfl, rfl, ?_⟩
  rfl

/-- C1 amended: under overlap policy skip, a *scheduled* fire of a job
whose id is in the running set changes nothing (no second run row); the
*manual* trigger path performs no overlap check, so whenever the job
exists and the concurrency cap is not reached it inserts a second
running row for the already-running job. -/
theorem overlap_skip_scheduled_only (maxC : Nat) (hasG : Bool) (res : ExecResult)
    (job : JobRow) (st : SchedState)
    (hpol : job.overlap_policy = .skip)
    (hrun : st.runningJobs.contains job.id = true) :
    onScheduledRun maxC hasG res job st = st ∧
    (∀ jobs : List JobRow, jobs.find? (fun j => j.id == job.id) = some job →
      st.runningJobs.length < maxC →
      triggerJobStart maxC jobs job.id st
        = .ok (st.nextRunId,
            { runningJobs := st.runningJobs
              runs := st.runs ++
                [{ id := st.nextRunId, job_id := job.id, status := .running
                   trigger := "manual", error := none }]
              nextRunId := st.nextRunId + 1 }) ∧
      ∀ st2, triggerJobStart maxC jobs job.id st = .ok (st.nextRunId, st2) →
        countRunning st2 job.id = countRunning st job.id + 1) := by
  constructor
  · unfold onScheduledRun
    rw [if_pos hrun, hpol]
  · intro jobs hfind hcap
    have hstart : triggerJobStart maxC jobs job.id st
        = .ok (st.nextRunId,
            { runningJobs := st.runningJobs
              runs := st.runs ++
                [{ id := st.nextRunId, job_id := job.id, status := .running
                   trigger := "manual", error := none }]
              nextRunId := st.nextRunId + 1 }) := by
      unfold triggerJobStart
      rw [hfind]
      show runJobStart maxC job "manual" st = _
      unfold runJobStart
      rw [if_neg (by omega : ¬ maxC ≤ st.runningJobs.length)]
      unfold createRun addRunning
      rw [if_pos hrun]
    refine ⟨hstart, ?_⟩
    intro st2 hst2
    rw [hstart] at hst2
    have hst2eq : st2
        = { runningJobs := st.runningJobs
            runs := st.runs ++
              [{ id := st.nextRunId, job_id := job.id, status := .running
                 trigger := "manual", error := none }]
            nextRunId := st.nextRunId + 1 } := by
      have := Except.ok.inj hst2
      exact (Prod.mk.injEq _ _ _ _ ▸ this).2.symm
    rw [hst2eq]
    unfold countRunning
    rw [List.filter_append]
    simp [List.length_append]

/-- A session job with no configured gateway client. -/
def sessionJobEx : JobRow :=
  { id := "sess", name := "S", schedule := "* * * * *", script := "Do the thing"
    type := .session, timeout_ms := none, overlap_policy := .skip
    on_failure := none, on_success := none }

/-- The scheduler state before the failing run. -/
def emptySchedEx : SchedState :=
  { runningJobs := [], runs := [], nextRunId := 1 }

/-- C2 failing input: runJob on a session job with no gateway client
throws the dispatch error after inserting the running row; the finally
block removes the id from runningJobs, but the run row is never updated
to a terminal status - it is left in status running forever. -/
theorem runJob_missing_gateway_leaves_running_row :
    (runJob 4 false { status := .ok, error := none } sessionJobEx "manual" emptySchedEx).1
      = .error "Session job requires Gateway client (gateway.tokenPath not configured)" ∧
    (runJob 4 false { status := .ok, error := none } sessionJobEx "manual" emptySchedEx).2.runs
      = [{ id := 1, job_id := "sess", status := .running, trigger := "manual", error := none }] ∧
    (runJob 4 false { status := .ok, error := none } sessionJobEx "manual" emptySchedEx).2.runningJobs
      = [] := by
  refine ⟨rfl, rfl, rfl⟩

/-! ## Schema migrations (src/db/migrations.ts)

The store is split into the schema_version table (which only
runMigrations writes) and the rest of the database, modelled as a log of
applied statement effects; `execStmt` is the oracle for one SQL
statement of a migration script (the registered scripts are DDL/DML on
other tables and never touch schema_version).  `db.exec` of a
multi-statement script runs without an enclosing transaction: each
statement auto-commits, the first error aborts the remainder of the
script but earlier statements keep their effects, and the error
propagates out of runMigrations. -/

/-- The migration-relevant store state. -/
structure MigDb where
  log : List String
  schema_version : List Nat
deriving DecidableEq, Repr

/-- db.exec of a script: statements in order, stop at the first error,
keep the effects of the statements already executed. -/
def execScript (execStmt : String → List String → Except String (List String)) :
    List String → List String → List String × Option String
  | [], log => (log, none)
  | stmt :: rest, log =>
      match execStmt stmt log with
      | .error e => (log, some e)
      | .ok log2 => execScript execStmt rest log2

/-- Ascending sort of the pending version numbers
(`.sort((a, b) => a - b)`). -/
def sortAsc (l : List Nat) : List Nat :=
  l.insertionSort fun a b => a ≤ b

/-- MAX(version) of schema_version; 0 when the table is empty. -/
def currentVersion (db : MigDb) : Nat := db.schema_version.foldl max 0

/-- The loop body of runMigrations over the pending versions: exec the
script, then INSERT the schema_version row as a separate statement. -/
def applyPending (execStmt : String → List String → Except String (List String))
    (migs : List (Nat × List String)) : List Nat → MigDb → MigDb × Option String
  | [], db => (db, none)
  | v :: rest, db =>
      let script := ((migs.find? fun m => m.1 == v).map Prod.snd).getD []
      let r := execScript execStmt script db.log
      match r.2 with
      | some e => ({ db with log := r.1 }, some e)
      | none =>
          applyPending execStmt migs rest
            { log := r.1, schema_version := db.schema_version ++ [v] }

/-- runMigrations: read max(version), keep the registered versions above
it, sort ascending, apply them in order. -/
def runMigrations (execStmt : String → List String → Except String (List String))
    (migs : List (Nat × List String)) (db : MigDb) : MigDb × Option String :=
  applyPending execStmt migs
    (sortAsc ((migs.map Prod.fst).filter fun v => decide (currentVersion db < v))) db

/-- The single registered migration of the counterexample: version 1
with a two-statement script whose second statement fails. -/
def migsEx : List (Nat × List String) := [(1, ["s1", "s2"])]

/-- Statement oracle of the counterexample: s1 succeeds (its effect is
appended to the store), s2 fails. -/
def execStmtEx (s : String) (log : List String) : Except String (List String) :=
  if s == "s2" then .error "boom" else .ok (log ++ [s])

/-- The empty store. -/
def migDbEx : MigDb := { log := [], schema_version := [] }

/-- C5 counterexample: migration 1's script fails at its second
statement.  runMigrations propagates the error, but the store is left
*changed* by the failed migration (statement s1 committed) while its
schema_version row was never inserted - neither both took effect nor
was the store left unchanged, so the script + version-row pair is not
atomic. -/
theorem runMigrations_not_atomic :
    (runMigrations execStmtEx migsEx migDbEx).2 = some "boom" ∧
    (runMigrations execStmtEx migsEx migDbEx).1.log = ["s1"] ∧
    (runMigrations execStmtEx migsEx migDbEx).1 ≠ migDbEx ∧
    (runMigrations execStmtEx migsEx migDbEx).1.schema_version = [] := by
  refine ⟨rfl, rfl, ?_, rfl⟩
  intro h
  have : (runMigrations execStmtEx migsEx migDbEx).1.log = migDbEx.log := by rw [h]
  simp [migDbEx] at this
  exact absurd this (by decide)

/-- The registered script of a version (MIGRATIONS[version]). -/
def scriptOf (migs : List (Nat × List String)) (v : Nat) : List String :=
  ((migs.find? fun m => m.1 == v).map Prod.snd).getD []

/-- Unfolding of applyPending when the script fails. -/
theorem applyPending_cons_err
    (execStmt : String → List String → Except String (List String))
    (migs : List (Nat × List String)) (v : Nat) (rest : List Nat) (db : MigDb)
    (e : String)
    (he : (execScript execStmt (scriptOf migs v) db.log).2 = some e) :
    applyPending execStmt migs (v :: rest) db
      = ({ db with log := (execScript execStmt (scriptOf migs v) db.log).1 }, some e) := by
  simp only [applyPending, scriptOf] at he ⊢
  rw [he]

/-- Unfolding of applyPending when the script succeeds. -/
theorem applyPending_cons_ok
    (execStmt : String → List String → Except String (List String))
    (migs : List (Nat × List String)) (v : Nat) (rest : List Nat) (db : MigDb)
    (he : (execScript execStmt (scriptOf migs v) db.log).2 = none) :
    applyPending execStmt migs (v :: rest) db
      = applyPending execStmt migs rest
          { log := (execScript execStmt (scriptOf migs v) db.log).1
            schema_version := db.schema_version ++ [v] } := by
  simp only [applyPending, scriptOf] at he ⊢
  rw [he]

/-- Behavior of the pending-version loop: on success every version row
is appended in order; on a script error the loop stops, the versions
before the failing one are recorded and the failing one is not. -/
theorem applyPending_spec
    (execStmt : String → List String → Except String (List String))
    (migs : List (Nat × List String)) :
    ∀ (pend : List Nat) (db : MigDb),
    ((applyPending execStmt migs pend db).2 = none →
      (applyPending execStmt migs pend db).1.schema_version
        = db.schema_version ++ pend) ∧
    (∀ e, (applyPending execStmt migs pend db).2 = some e →
      ∃ pre v post, pend = pre ++ v :: post ∧
        (applyPending execStmt migs pend db).1.schema_version
          = db.schema_version ++ pre) := by
  intro pend
  induction pend with
  | nil =>
      intro db
      refine ⟨fun _ => by simp [applyPending], fun e he => ?_⟩
      simp [applyPending] at he
  | cons v rest ih =>
      intro db
      cases hr : (execScript execStmt (scriptOf migs v) db.log).2 with
      | some e0 =>
          rw [applyPending_cons_err execStmt migs v rest db e0 hr]
          constructor
          · intro h
            simp at h
          · intro e _
            exact ⟨[], v, rest, rfl, by simp⟩
      | none =>
          rw [applyPending_cons_ok execStmt migs v rest db hr]
          obtain ⟨ih1, ih2⟩ := ih
            { log := (execScript execStmt (scriptOf migs v) db.log).1
              schema_version := db.schema_version ++ [v] }
          constructor
          · intro h
            rw [ih1 h]
            simp
          · intro e he
            obtain ⟨pre, v2, post, hsplit, hsv⟩ := ih2 e he
            refine ⟨v :: pre, v2, post, ?_, ?_⟩
            · rw [hsplit]
              rfl
            · rw [hsv]
              simp

/-- C5 amended: runMigrations applies exactly the registered migrations
whose version exceeds max(version), in ascending order; on success all
their version rows are appended in that order; each migration's script
and its version-row insert are separate non-transactional steps, so on
a script error the error propagates, the versions before the failing
migration are recorded, the failing one is not, and partial script
effects remain in the store. -/
theorem runMigrations_ordered
    (execStmt : String → List String → Except String (List String))
    (migs : List (Nat × List String)) (db : MigDb) :
    List.Sorted (fun a b => a ≤ b)
      (sortAsc ((migs.map Prod.fst).filter fun v => decide (currentVersion db < v))) ∧
    (∀ v, v ∈ sortAsc ((migs.map Prod.fst).filter fun v => decide (currentVersion db < v))
        ↔ v ∈ migs.map Prod.fst ∧ currentVersion db < v) ∧
    ((runMigrations execStmt migs db).2 = none →
      (runMigrations execStmt migs db).1.schema_version
        = db.schema_version
          ++ sortAsc ((migs.map Prod.fst).filter fun v => decide (currentVersion db < v))) ∧
    (∀ e, (runMigrations execStmt migs db).2 = some e →
      ∃ pre v post,
        sortAsc ((migs.map Prod.fst).filter fun v => decide (currentVersion db < v))
          = pre ++ v :: post ∧
        (runMigrations execStmt migs db).1.schema_version = db.schema_version ++ pre) := by
  refine ⟨List.sorted_insertionSort _ _, ?_, ?_, ?_⟩
  · intro v
    unfold sortAsc
    rw [(List.perm_insertionSort _ _).mem_iff, List.mem_filter]
    simp
  · exact (applyPending_spec execStmt migs _ db).1
  · exact (applyPending_spec execStmt migs _ db).2

/-! ## State engine (src/client/state-ops.ts)

Timestamps: the model clock is milliseconds since the UNIX epoch.
setState / parseTtl store `new Date(Date.now() + ms).toISOString()`,
which renders as YYYY-MM-DDTHH:mm:ss.sssZ, while the SQL side compares
against `datetime('now')`, which renders as YYYY-MM-DD HH:MM:SS; both
renderings and SQLite's BINARY text comparison are modelled exactly. -/

/-- Zero-padded decimal rendering. -/
def pad (width n : Nat) : String :=
  let s := toString n
  String.mk (List.replicate (width - s.length) '0') ++ s

/-- Gregorian date from days since 1970-01-01 (the standard
civil-from-days algorithm, specialised to post-epoch dates). -/
def civilFromDays (z0 : Nat) : Nat × Nat × Nat :=
  let z := z0 + 719468
  let era := z / 146097
  let doe := z % 146097
  let yoe := (doe - doe / 1460 + doe / 36524 - doe / 146097) / 365
  let y := yoe + era * 400
  let doy := doe - (365 * yoe + yoe / 4 - yoe / 100)
  let mp := (5 * doy + 2) / 153
  let d := doy - (153 * mp + 2) / 5 + 1
  let m := if mp < 10 then mp + 3 else mp - 9
  (if m ≤ 2 then y + 1 else y, m, d)

/-- Date.prototype.toISOString: YYYY-MM-DDTHH:mm:ss.sssZ, UTC. -/
def isoOfMs (ms : Nat) : String :=
  let days := ms / 86400000
  let rem := ms % 86400000
  let ymd := civilFromDays days
  pad 4 ymd.1 ++ "-" ++ pad 2 ymd.2.1 ++ "-" ++ pad 2 ymd.2.2
    ++ "T" ++ pad 2 (rem / 3600000) ++ ":" ++ pad 2 (rem % 3600000 / 60000)
    ++ ":" ++ pad 2 (rem % 60000 / 1000) ++ "." ++ pad 3 (rem % 1000) ++ "Z"

/-- SQLite datetime('now'): YYYY-MM-DD HH:MM:SS, UTC. -/
def sqliteNow (ms : Nat) : String :=
  let days := ms / 86400000
  let rem := ms % 86400000
  let ymd := civilFromDays days
  pad 4 ymd.1 ++ "-" ++ pad 2 ymd.2.1 ++ "-" ++ pad 2 ymd.2.2
    ++ " " ++ pad 2 (rem / 3600000) ++ ":" ++ pad 2 (rem % 3600000 / 60000)
    ++ ":" ++ pad 2 (rem % 60000 / 1000)

/-- Lexicographic comparison of character lists by code point. -/
def charListLt : List Char → List Char → Bool
  | [], [] => false
  | [], _ :: _ => true
  | _ :: _, [] => false
  | a :: as, b :: bs => if a < b then true else if b < a then false else charListLt as bs

/-- SQLite BINARY collation on the ASCII strings both sides produce:
byte-wise comparison coincides with code-point comparison. -/
def strLt (a b : String) : Bool := charListLt a.data b.data

/-- Decimal digits to a number (parseInt on a digit string). -/
def digitsToNat (cs : List Char) : Nat :=
  cs.foldl (fun acc c => acc * 10 + (c.toNat - 48)) 0

/-- The regex match of parseTtl, anchored ^(backslash-d+)([dhm])$: one
or more ASCII digits followed by one unit letter and nothing else. -/
def ttlMatch (ttl : String) : Option (Nat × Char) :=
  match ttl.data.reverse with
  | [] => none
  | u :: restRev =>
      let digits := restRev.reverse
      if (u == 'd' || u == 'h' || u == 'm') && !digits.isEmpty
          && digits.all (fun c => c.isDigit) then
        some (digitsToNat digits, u)
      else none

/-- parseTtl: parse the TTL string and return the ISO rendering of
now + offset; throws on any string the regex rejects. -/
def parseTtl (nowMs : Nat) (ttl : String) : Except String String :=
  match ttlMatch ttl with
  | none => .error ("Invalid TTL format: " ++ ttl)
  | some r =>
      let ms := if r.2 == 'd' then r.1 * 24 * 60 * 60 * 1000
        else if r.2 == 'h' then r.1 * 60 * 60 * 1000
        else r.1 * 60 * 1000
      .ok (isoOfMs (nowMs + ms))

/-- A row of the state table. -/
structure StateRow where
  ns : String
  key : String
  value : Option String
  expires_at : Option String
  updated_at : Nat
deriving DecidableEq, Repr

/-- The expiry filter of getState: expires_at IS NULL OR
expires_at > datetime('now'). -/
def notExpired (nowMs : Nat) (r : StateRow) : Bool :=
  match r.expires_at with
  | none => true
  | some e => strLt (sqliteNow nowMs) e

/-- getState: SELECT value WHERE namespace and key match and the row is
not expired; `row?.value ?? null` also yields null for a NULL value. -/
def getState (nowMs : Nat) (rows : List StateRow) (ns key : String) : Option String :=
  match rows.find? (fun r => r.ns == ns && r.key == key && notExpired nowMs r) with
  | some r => r.value
  | none => none

/-- The ON CONFLICT update of the TTL branch of setState: value,
expires_at and updated_at are set. -/
def expiryMark (nowMs : Nat) (ns key value e : String) (r : StateRow) : StateRow :=
  if r.ns == ns && r.key == key then
    { r with value := some value, expires_at := some e, updated_at := nowMs }
  else r

/-- The ON CONFLICT update of the no-TTL branch of setState: value and
updated_at are set - expires_at is left untouched. -/
def plainMark (nowMs : Nat) (ns key value : String) (r : StateRow) : StateRow :=
  if r.ns == ns && r.key == key then
    { r with value := some value, updated_at := nowMs }
  else r

/-- setState: `options?.ttl ? parseTtl(options.ttl) : null` (JS
truthiness: an absent or empty ttl string means no TTL), then the upsert
of the corresponding branch. A parseTtl throw propagates before any
write. -/
def setState (nowMs : Nat) (rows : List StateRow) (ns key value : String)
    (ttl : Option String) : Except String (List StateRow) :=
  if truthy ttl then
    match parseTtl nowMs (ttl.getD "") with
    | .error e => .error e
    | .ok expiresAt =>
        .ok (if (rows.find? fun r => r.ns == ns && r.key == key).isSome
          then rows.map (expiryMark nowMs ns key value expiresAt)
          else rows ++ [{ ns := ns, key := key, value := some value
                          expires_at := some expiresAt, updated_at := nowMs }])
  else
    .ok (if (rows.find? fun r => r.ns == ns && r.key == key).isSome
      then rows.map (plainMark nowMs ns key value)
      else rows ++ [{ ns := ns, key := key, value := some value
                      expires_at := none, updated_at := nowMs }])

/-- C7 failing input: setState at epoch 0 with ttl 1m stores
expires_at = 1970-01-01T00:01:00.000Z; getState one hour later still
returns the value, because the ISO string compares greater than
SQLite's space-separated datetime('now') of the same day (position 10:
T against the space).  Moreover a later setState *without* TTL does not
clear the stored expires_at, so once the date part has passed, getState
returns none although the most recent setState provided no TTL. -/
theorem getState_ttl_divergence :
    ((setState 0 [] "ns" "k" "v" (some "1m")).toOption.map
        (fun rows => rows.map fun r => r.expires_at)
      = some [some "1970-01-01T00:01:00.000Z"]) ∧
    ((setState 0 [] "ns" "k" "v" (some "1m")).toOption.map
        (fun rows => getState 3600000 rows "ns" "k") = some (some "v")) ∧
    ((0 : Nat) + 60000 < 3600000) ∧
    (((setState 0 [] "ns" "k" "v" (some "1m")).toOption.bind
        (fun rows => (setState 172800000 rows "ns" "k" "v2" none).toOption)).map
        (fun rows => getState 172800000 rows "ns" "k") = some none) := by
  exact ⟨by decide, by decide, by decide, by decide⟩

/-- A row of the state_items table. -/
structure StateItemRow where
  ns : String
  key : String
  item_key : String
  value : Option String
  updated_at : Nat
deriving DecidableEq, Repr

/-- hasItem: SELECT 1 WHERE namespace, key, item_key; true iff a row
exists, regardless of its value. -/
def hasItem (rows : List StateItemRow) (ns key itemKey : String) : Bool :=
  (rows.find? fun r => r.ns == ns && r.key == key && r.item_key == itemKey).isSome

/-- getItem: SELECT value WHERE namespace, key, item_key;
`row?.value ?? null` - null both when the row is missing and when its
stored value is NULL. -/
def getItem (rows : List StateItemRow) (ns key itemKey : String) : Option String :=
  match rows.find? fun r => r.ns == ns && r.key == key && r.item_key == itemKey with
  | some r => r.value
  | none => none

/-- C10: hasItem is true exactly when a row with the triple exists;
getItem returns none exactly when no such row exists or the row's value
is NULL, and the stored string otherwise - so getItem conflates the two
cases and only hasItem distinguishes them. -/
theorem getItem_null_conflation (rows : List StateItemRow) (ns key itemKey : String) :
    (hasItem rows ns key itemKey = true ↔
      ∃ r ∈ rows, r.ns = ns ∧ r.key = key ∧ r.item_key = itemKey) ∧
    (getItem rows ns key itemKey = none ↔
      ((rows.find? fun x => x.ns == ns && x.key == key && x.item_key == itemKey) = none
        ∨ ∃ r, (rows.find? fun x => x.ns == ns && x.key == key && x.item_key == itemKey)
            = some r ∧ r.value = none)) ∧
    (∀ v, getItem rows ns key itemKey = some v ↔
      ∃ r, (rows.find? fun x => x.ns == ns && x.key == key && x.item_key == itemKey)
          = some r ∧ r.value = some v) := by
  refine ⟨?_, ?_, ?_⟩
  · unfold hasItem
    rw [List.find?_isSome]
    constructor
    · rintro ⟨x, hx, hpx⟩
      simp only [Bool.and_eq_true, beq_iff_eq] at hpx
      exact ⟨x, hx, hpx.1.1, hpx.1.2, hpx.2⟩
    · rintro ⟨r, hr, h1, h2, h3⟩
      refine ⟨r, hr, ?_⟩
      simp [h1, h2, h3]
  · unfold getItem
    cases hf : rows.find? fun x => x.ns == ns && x.key == key && x.item_key == itemKey with
    | none => simp
    | some r =>
        constructor
        · intro hv
          exact Or.inr ⟨r, rfl, hv⟩
        · rintro (h | ⟨r2, hr2, hv2⟩)
          · cases h
          · have hrr : r2 = r := (Option.some.inj hr2).symm
            rw [← hrr]
            exact hv2
  · intro v
    unfold getItem
    cases hf : rows.find? fun x => x.ns == ns && x.key == key && x.item_key == itemKey with
    | none =>
        constructor
        · intro h
          cases h
        · rintro ⟨r, hr, _⟩
          cases hr
    | some r =>
        constructor
        · intro hv
          exact ⟨r, rfl, hv⟩
        · rintro ⟨r2, hr2, hv2⟩
          have hrr : r2 = r := (Option.some.inj hr2).symm
          rw [← hrr]
          exact hv2

/-! ## Structured result markers (src/scheduler/executor.ts) -/

/-- The shape of a parsed JR_RESULT object as the executor reads it:
the two recognized fields, each possibly undefined. -/
structure RObj where
  tokens : Option Int
  meta : Option String
deriving DecidableEq, Repr

/-- JS String.prototype.trim whitespace (the ASCII part; captured lines
are ASCII here). -/
def isJsWs (c : Char) : Bool :=
  c == ' ' || c == '\t' || c == '\n' || c == '\r' || c == '\x0b' || c == '\x0c'

/-- Trim leading and trailing whitespace (as the character list). -/
def trimJs (s : String) : List Char :=
  ((s.data.dropWhile isJsWs).reverse.dropWhile isJsWs).reverse

/-- Split a character list on a separator character, keeping empty
segments (JS String.prototype.split with a one-character separator). -/
def splitOnChar (c : Char) : List Char → List (List Char)
  | [] => [[]]
  | a :: as =>
      let r := splitOnChar c as
      if a == c then [] :: r
      else
        match r with
        | [] => [[a]]
        | g :: gs => (a :: g) :: gs

/-- stdout.split(backslash-n). -/
def splitLines (s : String) : List String :=
  (splitOnChar '\n' s.data).map String.mk

/-- Line terminators, which the JS regex dot never matches. -/
def isLineTerm (c : Char) : Bool :=
  c == '\n' || c == '\r' || c == ' ' || c == ' '

/-- The test of the anchored regex JR_RESULT:(.+)$ with leading caret
on the trimmed line: prefix JR_RESULT:, nonempty suffix, no line
terminator in the suffix; returns the captured suffix. -/
def matchJRLine (line : String) : Option String :=
  let t := trimJs line
  if t.take 10 == "JR_RESULT:".data && decide (10 < t.length)
      && (t.drop 10).all (fun c => !isLineTerm c) then
    some (String.mk (t.drop 10))
  else none

/-- The loop body of parseResultLines: if the line matches the marker
and its suffix parses as JSON, a defined tokens field overwrites the
accumulator, and likewise a defined meta field; otherwise the
accumulator is kept.  `jparse` is the JSON.parse oracle (none models the
parse error the code ignores). -/
def markStep (jparse : String → Option RObj)
    (acc : Option Int × Option String) (line : String) :
    Option Int × Option String :=
  match matchJRLine line with
  | some suffix =>
      match jparse suffix with
      | some data =>
          (match data.tokens with
           | some tk => some tk
           | none => acc.1,
           match data.meta with
           | some m => some m
           | none => acc.2)
      | none => acc
  | none => acc

/-- parseResultLines: split stdout on newlines and scan in order. -/
def parseResultLines (jparse : String → Option RObj) (stdout : String) :
    Option Int × Option String :=
  (splitLines stdout).foldl (markStep jparse) (none, none)

/-- Modelled from the spec: the tokens and meta fields of the last
occurrence whose suffix parses as JSON - the claim's reading that the
last valid occurrence alone determines both stored fields. -/
def lastOccurrenceFields (jparse : String → Option RObj) (stdout : String) :
    Option Int × Option String :=
  match ((splitLines stdout).filterMap fun l => (matchJRLine l).bind jparse).getLast? with
  | some data => (data.tokens, data.meta)
  | none => (none, none)

/-- The JSON.parse oracle of the counterexample: the name A stands for
the JSON text with only a tokens field (value 5), B for the JSON text
with only a meta field (value x). -/
def jparseEx (s : String) : Option RObj :=
  if s == "A" then some { tokens := some 5, meta := none }
  else if s == "B" then some { tokens := none, meta := some "x" }
  else none

/-- C6 counterexample: with two valid markers, the first defining only
tokens and the last defining only meta, the stored tokens come from the
*earlier* occurrence - the fields of the last valid occurrence alone
(tokens undefined, hence null) do not match the stored result. -/
theorem parseResultLines_not_last_occurrence :
    parseResultLines jparseEx "JR_RESULT:A\nJR_RESULT:B" = (some 5, some "x") ∧
    lastOccurrenceFields jparseEx "JR_RESULT:A\nJR_RESULT:B" = (none, some "x") ∧
    parseResultLines jparseEx "JR_RESULT:A\nJR_RESULT:B"
      ≠ lastOccurrenceFields jparseEx "JR_RESULT:A\nJR_RESULT:B" := by
  exact ⟨by decide, by decide, by decide⟩

/-- The last defined value of a field over the parsed objects in scan
order (later objects win; objects lacking the field do not erase an
earlier value). -/
def lastDef {α : Type} (f : RObj → Option α) : List RObj → Option α
  | [] => none
  | o :: os =>
      match lastDef f os with
      | some v => some v
      | none => f o

/-- First-defined choice on options. -/
def orD {α : Type} (x y : Option α) : Option α :=
  match x with
  | some v => some v
  | none => y

/-- orD is associative. -/
theorem orD_assoc {α : Type} (a b c : Option α) :
    orD (orD a b) c = orD a (orD b c) := by
  cases a <;> rfl

/-- orD with none on the right is the identity. -/
theorem orD_none {α : Type} (x : Option α) : orD x none = x := by
  cases x <;> rfl

/-- lastDef unfolds through cons via orD. -/
theorem lastDef_cons {α : Type} (f : RObj → Option α) (o : RObj) (os : List RObj) :
    lastDef f (o :: os) = orD (lastDef f os) (f o) := rfl

/-- markStep characterised through the parsed object of the line. -/
theorem markStep_char (jparse : String → Option RObj)
    (acc : Option Int × Option String) (l : String) :
    markStep jparse acc l =
      match (matchJRLine l).bind jparse with
      | some data => (orD data.tokens acc.1, orD data.meta acc.2)
      | none => acc := by
  cases hml : matchJRLine l with
  | none => simp [markStep, hml]
  | some suffix =>
      cases hj : jparse suffix with
      | none => simp [markStep, hml, hj]
      | some o =>
          simp only [markStep, hml, Option.bind, hj, orD]
          obtain ⟨tks, mt⟩ := o
          cases tks <;> cases mt <;> rfl

/-- C6 amended: the stored tokens value is the tokens field of the last
valid occurrence that defines tokens, and the stored meta value is the
meta field of the last valid occurrence that defines meta - each field
independently; a later valid occurrence that omits a field does not
erase an earlier value. -/
theorem parseResultLines_per_field (jparse : String → Option RObj) (stdout : String) :
    parseResultLines jparse stdout =
      (lastDef (fun o => o.tokens)
          ((splitLines stdout).filterMap fun l => (matchJRLine l).bind jparse),
       lastDef (fun o => o.meta)
          ((splitLines stdout).filterMap fun l => (matchJRLine l).bind jparse)) := by
  have key : ∀ (lines : List String) (acc : Option Int × Option String),
      lines.foldl (markStep jparse) acc =
      (orD (lastDef (fun o => o.tokens)
          (lines.filterMap fun l => (matchJRLine l).bind jparse)) acc.1,
       orD (lastDef (fun o => o.meta)
          (lines.filterMap fun l => (matchJRLine l).bind jparse)) acc.2) := by
    intro lines
    induction lines with
    | nil =>
        intro acc
        show acc = (orD none acc.1, orD none acc.2)
        cases acc
        rfl
    | cons l ls ih =>
        intro acc
        rw [List.foldl_cons, ih (markStep jparse acc l), markStep_char,
          List.filterMap_cons]
        cases hb : (matchJRLine l).bind jparse with
        | none => rfl
        | some o =>
            show (orD _ (orD o.tokens acc.1), orD _ (orD o.meta acc.2))
              = (orD (lastDef _ (o :: _)) acc.1, orD (lastDef _ (o :: _)) acc.2)
            rw [lastDef_cons, lastDef_cons, orD_assoc, orD_assoc]
  show (splitLines stdout).foldl (markStep jparse) (none, none) = _
  rw [key (splitLines stdout) (none, none)]
  rw [orD_none, orD_none]

/-! ## Concrete witnesses -/

/-- A failed queue item used by the C9 witness. -/
def q9ItemEx : QueueItemRow :=
  { id := 1, queue_id := "q", payload := "p", status := .failed, priority := 0
    attempts := 1, max_attempts := 1, dedup_key := none, error := none
    created_at := 1, claimed_at := some 1, finished_at := some 2 }

/-- The queue state of the C9 witness. -/
def q9StateEx : QState := { defs := [], items := [q9ItemEx], nextId := 2 }

/-- Witness for C9: done on an already failed item still flips it to
done; done on a missing id is a no-op. -/
theorem done_unconditional_witness :
    findItem (doneOp 5 q9StateEx 1) 1
      = some { q9ItemEx with status := .done, finished_at := some 5 } ∧
    doneOp 5 q9StateEx 99 = q9StateEx :=
  ⟨((done_unconditional 5 q9StateEx 1).1 q9ItemEx (by decide)).1,
   (done_unconditional 5 q9StateEx 99).2 (by decide)⟩

/-- The queue definition of the C4 witness. -/
def c4DefEx : QueueDef :=
  { id := "q", dedup_expr := some "$.threadId", dedup_scope := some "pending"
    max_attempts := some 1 }

/-- A pending item with the dedup key of the C4 witness. -/
def c4ItemEx : QueueItemRow :=
  { id := 1, queue_id := "q", payload := "payload1", status := .pending, priority := 0
    attempts := 0, max_attempts := 1, dedup_key := some "t1", error := none
    created_at := 1, claimed_at := none, finished_at := none }

/-- The queue state of the C4 witness. -/
def c4StateEx : QState := { defs := [c4DefEx], items := [c4ItemEx], nextId := 2 }

/-- The JSONPath oracle of the C4 witness. -/
def c4EvalEx (e p : String) : Option (List String) :=
  if e == "$.threadId" && p == "payload1" then some ["t1"] else none

/-- The JSONPath oracle of the empty-key half of the C4 witness. -/
def c4EvalEmptyEx (e p : String) : Option (List String) :=
  if e == "$.threadId" && p == "payload2" then some [""] else none

/-- A pending item carrying an empty-string dedup key, for the
empty-key half of the C4 witness. -/
def c4EmptyItemEx : QueueItemRow :=
  { c4ItemEx with dedup_key := some "" }

/-- The queue state of the empty-key half of the C4 witness. -/
def c4EmptyStateEx : QState := { defs := [c4DefEx], items := [c4EmptyItemEx], nextId := 2 }

/-- Witness for C4: a second enqueue of the same non-empty dedup key on
a pending-scope queue returns the sentinel, while an enqueue whose
evaluated key is the empty string skips deduplication and inserts even
though a pending item with an empty dedup key exists. -/
theorem enqueue_dedup_witness :
    (enqueue c4EvalEx c4StateEx "q" "payload1" 0 none).1 = -1 ∧
    (enqueue c4EvalEmptyEx c4EmptyStateEx "q" "payload2" 0 none).1 = Int.ofNat 2 :=
  ⟨(((enqueue_dedup c4EvalEx c4StateEx "q" "payload1" 0 none c4DefEx "$.threadId" "t1" []
      (by decide) rfl (by decide) (by decide)).1 (by decide)).1 (Or.inl rfl)).mpr
    ⟨c4ItemEx, by decide, rfl, rfl, Or.inl rfl⟩,
   (enqueue_dedup c4EvalEmptyEx c4EmptyStateEx "q" "payload2" 0 none c4DefEx "$.threadId" "" []
      (by decide) rfl (by decide) (by decide)).2.1 rfl⟩

/-- The queue definition of the C3 witness. -/
def c3DefEx : QueueDef :=
  { id := "q", dedup_expr := none, dedup_scope := none, max_attempts := some 3 }

/-- A fresh pending item of the C3 witness. -/
def c3ItemEx : QueueItemRow :=
  { id := 1, queue_id := "q", payload := "p", status := .pending, priority := 0
    attempts := 0, max_attempts := 3, dedup_key := none, error := none
    created_at := 1, claimed_at := none, finished_at := none }

/-- The queue state of the C3 witness. -/
def c3StateEx : QState := { defs := [c3DefEx], items := [c3ItemEx], nextId := 2 }

/-- The JSONPath oracle of the C3 witness (no dedup expressions in play). -/
def c3EvalEx : String → String → Option (List String) := fun _ _ => none

/-- A processing item with its attempts exhausted, for the dead-letter
half of the C3 witness. -/
def c3FailItemEx : QueueItemRow :=
  { id := 1, queue_id := "q", payload := "p", status := .processing, priority := 0
    attempts := 1, max_attempts := 1, dedup_key := none, error := none
    created_at := 1, claimed_at := some 1, finished_at := none }

/-- The queue state of the dead-letter half of the C3 witness. -/
def c3FailStateEx : QState := { defs := [], items := [c3FailItemEx], nextId := 2 }

/-- Witness for C3: a concrete dequeue increments attempts by one; a
concrete exhausted fail dead-letters; afterwards a dequeue trace never
returns the item id. -/
theorem queue_retry_bound_witness :
    attemptsOf (dequeue 7 c3StateEx "q" 1).2 1 = attemptsOf c3StateEx 1 + 1 ∧
    findItem (failOp 9 c3FailStateEx 1 (some "boom")) 1
      = some { c3FailItemEx with
                status := .failed, finished_at := some 9, error := some "boom" } ∧
    (1 : Nat) ∉ (applyTrace c3EvalEx (failOp 9 c3FailStateEx 1 (some "boom"))
      [QOp.dequeue 10 "q" 5]).2 := by
  refine ⟨?_, ?_, ?_⟩
  · exact queue_retry_bound.1 7 c3StateEx "q" 1 (by unfold QInv ItemInv; decide)
      (1, "p") (by decide)
  · exact (queue_retry_bound.2.1 9 c3FailStateEx 1 (some "boom") c3FailItemEx
      (by decide)).2 (by decide)
  · refine queue_retry_bound.2.2.2 c3EvalEx [QOp.dequeue 10 "q" 5] 9 c3FailStateEx 1
      (some "boom") c3FailItemEx (by unfold QInv ItemInv; decide) ?_ (by decide) (by decide)
    intro op hop
    rcases List.mem_singleton.mp hop with rfl
    trivial

/-- The execution result of the C1 witness. -/
def execResEx : ExecResult := { status := .ok, error := none }

/-- Witness for the C1 amended theorem at the concrete mid-run state. -/
theorem overlap_skip_scheduled_only_witness :
    onScheduledRun 4 false execResEx jobSkipEx schedStateEx = schedStateEx ∧
    triggerJobStart 4 [jobSkipEx] jobSkipEx.id schedStateEx
      = .ok (schedStateEx.nextRunId,
          { runningJobs := schedStateEx.runningJobs
            runs := schedStateEx.runs ++
              [{ id := schedStateEx.nextRunId, job_id := jobSkipEx.id, status := .running
                 trigger := "manual", error := none }]
            nextRunId := schedStateEx.nextRunId + 1 }) :=
  ⟨(overlap_skip_scheduled_only 4 false execResEx jobSkipEx schedStateEx rfl rfl).1,
   ((overlap_skip_scheduled_only 4 false execResEx jobSkipEx schedStateEx rfl rfl).2
      [jobSkipEx] (by decide) (by decide)).1⟩

/-- A one-migration registry whose single statement succeeds, for the
success half of the C5 witness. -/
def migsOkEx : List (Nat × List String) := [(1, ["s1"])]

/-- Witness for the C5 amended theorem: on success the version row is
appended; on the failing registry the versions split around the failing
migration with nothing recorded for it. -/
theorem runMigrations_ordered_witness :
    (runMigrations execStmtEx migsOkEx migDbEx).1.schema_version
      = migDbEx.schema_version
        ++ sortAsc ((migsOkEx.map Prod.fst).filter
            fun v => decide (currentVersion migDbEx < v)) ∧
    (∃ pre v post,
      sortAsc ((migsEx.map Prod.fst).filter fun v => decide (currentVersion migDbEx < v))
        = pre ++ v :: post ∧
      (runMigrations execStmtEx migsEx migDbEx).1.schema_version
        = migDbEx.schema_version ++ pre) :=
  ⟨(runMigrations_ordered execStmtEx migsOkEx migDbEx).2.2.1 rfl,
   (runMigrations_ordered execStmtEx migsEx migDbEx).2.2.2 "boom" rfl⟩

/-- A state item row whose stored value is NULL, for the C10 witness. -/
def c10RowEx : StateItemRow :=
  { ns := "n", key := "k", item_key := "i", value := none, updated_at := 3 }

/-- Witness for C10: on a row with a NULL value, hasItem sees the row
but getItem returns none - indistinguishable from a missing row. -/
theorem getItem_null_conflation_witness :
    hasItem [c10RowEx] "n" "k" "i" = true ∧
    getItem [c10RowEx] "n" "k" "i" = none :=
  ⟨(getItem_null_conflation [c10RowEx] "n" "k" "i").1.mpr
      ⟨c10RowEx, by decide, rfl, rfl, rfl⟩,
   (getItem_null_conflation [c10RowEx] "n" "k" "i").2.1.mpr
      (Or.inr ⟨c10RowEx, by decide, rfl⟩)⟩

end JeevesRunner
